import Mathlib

/-!
Verification of the task reconciliation and rendering engine of
`create-daily-note.py` (Todoist → Obsidian daily-note script).

Shallow embedding conventions:
* Todoist task ids are decimal digit strings in the source (JSON); they are
  modelled by their numeric value (`Nat`), rendered back to digit strings with
  `natRepr` where the source interpolates them into text.
* Timestamps (`due.datetime`) are ISO-8601 instants; they are modelled as
  seconds since the epoch, UTC (`Nat`).  `strftime("%Y-%m-%d")` equality is
  then equality of `epochDay`, and `strftime("%H%M%S")` string comparison of
  equal-length digit strings coincides with numeric comparison of
  `hour*10000 + minute*100 + second`, which is how `timeVal` models it
  (the `'999999'` sentinel for undated tasks dominates every real
  `HHMMSS ≤ 235959`).
* `astimezone()` (conversion to the local display timezone) is modelled by a
  fixed offset in minutes, a parameter of the rendering functions.
* Remote HTTP calls are oracles: fetch results are `Except Unit _` inputs and
  remote mutations are returned as explicit action lists.
-/

namespace DayPlanner

/-- A Todoist task as used by the script: the dictionary fields the code
reads.  `dueDatetime` is `some s` exactly when `task.get('due')` and
`task['due'].get('datetime')` are both truthy; `durationMin` is the duration
normalized to minutes (the source accepts dict/int/str forms and reduces them
to this number); `parentId`/`projectId` are `none` when the key is absent or
falsy. -/
structure Task where
  id : Nat
  content : String
  completed : Bool
  priority : Nat
  projectId : Option String
  parentId : Option Nat
  dueDatetime : Option Nat
  durationMin : Option Nat
deriving DecidableEq

/-- Decimal digit characters, used to model Python string formatting of ids
and of zero-padded time fields. -/
def digitChar (n : Nat) : Char :=
  if n = 0 then '0' else if n = 1 then '1' else if n = 2 then '2'
  else if n = 3 then '3' else if n = 4 then '4' else if n = 5 then '5'
  else if n = 6 then '6' else if n = 7 then '7' else if n = 8 then '8' else '9'

/-- Fuelled decimal printer (fuel `n+1` always suffices since `n/10 < n`). -/
def natReprAux : Nat → Nat → List Char
  | 0, _ => []
  | fuel + 1, n =>
    if n < 10 then [digitChar n]
    else natReprAux fuel (n / 10) ++ [digitChar (n % 10)]

/-- `str(n)` for a natural number: decimal digits, no sign, no padding. -/
def natRepr (n : Nat) : String := String.mk (natReprAux (n + 1) n)

/-- `str(i)` for an integer (used for the `5 - priority` badge, which Python
would print with a minus sign if priority exceeded 5). -/
def intRepr (i : Int) : String :=
  if i < 0 then "-" ++ natRepr i.natAbs else natRepr i.toNat

/-- Boolean character-list test: `pre` is an initial segment of `s`. -/
def hasPre : List Char → List Char → Bool
  | [], _ => true
  | _ :: _, [] => false
  | p :: ps, c :: cs => c = p && hasPre ps cs

/-- Fuelled model of Python `str.replace(needle, "")` for a non-empty
`needle`: repeatedly delete the leftmost occurrence, scanning left to
right. -/
def replaceAllAux (needle : List Char) : Nat → List Char → List Char
  | 0, s => s
  | _ + 1, [] => []
  | fuel + 1, c :: rest =>
    if hasPre needle (c :: rest) then
      replaceAllAux needle fuel (List.drop needle.length (c :: rest))
    else c :: replaceAllAux needle fuel rest

/-- Python `s.replace(needle, "")`. -/
def replaceAll (needle s : String) : String :=
  String.mk (replaceAllAux needle.toList (s.toList.length + 1) s.toList)

/-- The import-origin label suffix the renderer and dedup step strip from
task content. -/
def googleSuffix : String := " @Google-kalenterin tapahtuma"

/-- Content normalization used by the dedup step and the renderer:
`task.get("content", "").replace(" @Google-kalenterin tapahtuma", "")`. -/
def normContent (s : String) : String := replaceAll googleSuffix s

/-- The dedup key `f"{content}_{parent_id}"` (Python formats `None` as the
four letters `None`, and a present parent id as its digit string). -/
def dedupKey (t : Task) : String :=
  normContent t.content ++ "_" ++
    (match t.parentId with
     | some p => natRepr p
     | none => "None")

/-- One step of the dedup dictionary: insert under key `k`, replacing in
place when the key exists and the incoming id is strictly larger
(`int(task['id']) > int(unique_tasks[key]['id'])`), appending at the end
when the key is new (Python dict insertion order). -/
def dedupInsert (k : String) (t : Task) : List (String × Task) → List (String × Task)
  | [] => [(k, t)]
  | (k0, t0) :: rest =>
    if k0 = k then
      if t0.id < t.id then (k0, t) :: rest else (k0, t0) :: rest
    else (k0, t0) :: dedupInsert k t rest

/-- Fold of the dedup dictionary over the task list. -/
def dedupGo : List (String × Task) → List Task → List (String × Task)
  | acc, [] => acc
  | acc, t :: ts => dedupGo (dedupInsert (dedupKey t) t acc) ts

/-- `tasks = list(unique_tasks.values())`: the deduplicated task list, in
dictionary insertion order. -/
def dedupTasks (l : List Task) : List Task := (dedupGo [] l).map Prod.snd

/-- Sort-key time component: `dt.strftime('%H%M%S')` as a number, with the
`'999999'` sentinel for tasks without a `due.datetime` (string comparison of
the equal-length digit strings is numeric comparison). -/
def timeVal (t : Task) : Nat :=
  match t.dueDatetime with
  | none => 999999
  | some s => ((s % 86400) / 3600) * 10000 + (((s % 86400) % 3600) / 60) * 100 + s % 60

/-- First sort-key component: completed tasks sort last. -/
def completedBit (t : Task) : Nat := if t.completed then 1 else 0

/-- The sort key `(is_completed, -priority, time_str, -id)` compared
lexicographically, as a `≤` relation (negated components flip the
comparison direction). -/
def keyLE (a b : Task) : Prop :=
  completedBit a < completedBit b ∨
    (completedBit a = completedBit b ∧
      (b.priority < a.priority ∨
        (a.priority = b.priority ∧
          (timeVal a < timeVal b ∨ (timeVal a = timeVal b ∧ b.id ≤ a.id)))))

instance (a b : Task) : Decidable (keyLE a b) := by
  unfold keyLE; exact inferInstance

/-- Insertion step of a stable insertion sort parameterized by a boolean
`≤` test (model of Python's stable `list.sort(key=...)`). -/
def insertBy (le : Task → Task → Bool) (t : Task) : List Task → List Task
  | [] => [t]
  | x :: xs => if le x t then x :: insertBy le t xs else t :: x :: xs

/-- Stable insertion sort by a boolean `≤` test. -/
def sortBy (le : Task → Task → Bool) (l : List Task) : List Task :=
  l.foldl (fun acc t => insertBy le t acc) []

/-- `root_tasks.sort(key=sort_key)` / `sorted(child_tasks[...], key=sort_key)`
in `format_todoist_tasks`. -/
def sortTasks (l : List Task) : List Task := sortBy (fun a b => decide (keyLE a b)) l

/-- Root tasks of a batch: those without a (truthy) `parent_id`. -/
def rootsOf (l : List Task) : List Task := l.filter (fun t => t.parentId = none)

/-- The children grouped under parent id `pid` (the `child_tasks` dictionary
entry, in batch order). -/
def childrenOf (l : List Task) (pid : Nat) : List Task :=
  l.filter (fun t => t.parentId = some pid)

/-- ASCII letter test, the `a-zA-Z` part of the renderer's regexes. -/
def isAsciiLetter (c : Char) : Bool :=
  ('a' ≤ c && c ≤ 'z') || ('A' ≤ c && c ≤ 'Z')

/-- The character class `[a-zA-Z0-9]`. -/
def isWordChar (c : Char) : Bool := isAsciiLetter c || ('0' ≤ c && c ≤ '9')

/-- Python's `\s` for the ASCII range: space, tab, newline, carriage return,
vertical tab, form feed. -/
def isPySpace (c : Char) : Bool :=
  c = ' ' || c = '\t' || c = '\n' || c = '\x0d' || c = '\x0b' || c = '\x0c'

/-- ASCII decimal digit test, the `\d` of the note-parsing regex (task ids
are ASCII digit strings). -/
def isDigitCh (c : Char) : Bool := '0' ≤ c && c ≤ '9'

/-- ASCII lower-casing of one character, Python `str.lower` restricted to
ASCII (non-ASCII letters are removed by the surrounding `[^a-zA-Z0-9\s]`
filter either way, so the restriction is invisible in `create_class_string`;
for the fuzzy-title normalization only ASCII titles are exercised). -/
def lowerTable : List (Char × Char) :=
  [('A', 'a'), ('B', 'b'), ('C', 'c'), ('D', 'd'), ('E', 'e'), ('F', 'f'),
   ('G', 'g'), ('H', 'h'), ('I', 'i'), ('J', 'j'), ('K', 'k'), ('L', 'l'),
   ('M', 'm'), ('N', 'n'), ('O', 'o'), ('P', 'p'), ('Q', 'q'), ('R', 'r'),
   ('S', 's'), ('T', 't'), ('U', 'u'), ('V', 'v'), ('W', 'w'), ('X', 'x'),
   ('Y', 'y'), ('Z', 'z')]

def pyLower (c : Char) : Char :=
  ((lowerTable.find? (fun p => p.1 = c)).map Prod.snd).getD c

/-- Scan for the first `]]` (the lazy `.*?\]\]`), failing on a newline since
`.` does not match `\n`; returns the remainder after the `]]`. -/
def findCloseBr : List Char → Option (List Char)
  | [] => none
  | [_] => none
  | a :: b :: rest =>
    if a = ']' && b = ']' then some rest
    else if a = '\n' then none
    else findCloseBr (b :: rest)

/-- Fuelled model of `re.sub(r'\[\[.*?\]\]', '', s)`: at each position try to
match `[[` followed lazily by the first `]]`; on a match drop it and resume
after it, otherwise emit the character and move one position right. -/
def stripWikiAux : Nat → List Char → List Char
  | 0, s => s
  | _ + 1, [] => []
  | fuel + 1, a :: rest =>
    match rest with
    | [] => [a]
    | b :: rest2 =>
      if a = '[' && b = '[' then
        match findCloseBr rest2 with
        | some rest3 => stripWikiAux fuel rest3
        | none => '[' :: stripWikiAux fuel ('[' :: rest2)
      else a :: stripWikiAux fuel rest

/-- Python `s.strip()`: drop ASCII whitespace from both ends. -/
def pyStripList (l : List Char) : List Char :=
  ((l.dropWhile isPySpace).reverse.dropWhile isPySpace).reverse

/-- Python `s.strip()` on strings. -/
def pyStrip (s : String) : String := String.mk (pyStripList s.toList)

/-- `create_class_string`: remove `[[...]]` wiki links, lower-case, keep only
`[a-zA-Z0-9\s]`, and strip (the `replace(' ', ' ')` step is the identity). -/
def createClassString (content : String) : String :=
  let noWiki := stripWikiAux (content.toList.length + 1) content.toList
  String.mk (pyStripList ((noWiki.map pyLower).filter (fun c => isWordChar c || isPySpace c)))

/-- Two-digit zero-padded field of `strftime` (`%H`, `%M`). -/
def twoDigit (n : Nat) : String := String.mk [digitChar (n / 10 % 10), digitChar (n % 10)]

/-- `astimezone()` modelled by a fixed offset in minutes: the local hour and
minute of an instant. -/
def localHM (off : Int) (instant : Nat) : Nat × Nat :=
  let m : Int := (instant / 60 : Nat) + off
  let md := (m % 1440 + 1440) % 1440
  ((md / 60).toNat, (md % 60).toNat)

/-- `dt.astimezone().strftime("%H:%M")`. -/
def fmtHM (off : Int) (instant : Nat) : String :=
  twoDigit (localHM off instant).1 ++ ":" ++ twoDigit (localHM off instant).2

/-- The calendar date of an instant (equality of `strftime("%Y-%m-%d")`
strings is equality of UTC epoch days). -/
def epochDay (instant : Nat) : Nat := instant / 86400

/-- The duration the renderer extracts (dict `amount` / int / str, default
0). -/
def taskDuration (t : Task) : Nat := t.durationMin.getD 0

/-- The optional `HH:MM - HH:MM ` time prefix of a rendered task line: only
when the task has a `due.datetime` whose (UTC) date equals the render date,
and only when a nonzero duration is available; start and end are converted
to local display time. -/
def timePrefixStr (today : Nat) (off : Int) (t : Task) : String :=
  match t.dueDatetime with
  | none => ""
  | some s =>
    if epochDay s = today then
      if taskDuration t ≠ 0 then
        fmtHM off s ++ " - " ++ fmtHM off (s + taskDuration t * 60) ++ " "
      else ""
    else ""

/-- The priority badge `<i d="pN">pN</i> ` with `N = 5 - priority`, shown
only when priority exceeds 1. -/
def priorityTag (t : Task) : String :=
  if 1 < t.priority then
    "<i d=\"p" ++ intRepr (5 - (t.priority : Int)) ++ "\">p" ++
      intRepr (5 - (t.priority : Int)) ++ "</i> "
  else ""

/-- `project_names.get(project_id, "")` over the fetched id→name mapping. -/
def lookupProj (projects : List (String × String)) (pid : Option String) : String :=
  match pid with
  | none => ""
  | some p => (((projects.find? (fun q => q.1 = p)).map Prod.snd).getD "")

/-- The checkbox marker: `x` when completed, space otherwise. -/
def checkboxStr (t : Task) : String := if t.completed then "x" else " "

/-- The title text as displayed: content with the import-origin suffix
stripped. -/
def displayContent (t : Task) : String := replaceAll googleSuffix t.content

/-- The machine-readable anchor `<span data-id=".." data-project=".."
class=".."></span>` of a rendered line. -/
def spanStr (t : Task) (projectName : String) : String :=
  "<span data-id=\"" ++ natRepr t.id ++ "\" data-project=\"" ++ projectName ++
    "\" class=\"" ++ createClassString (displayContent t) ++ "\"></span>"

/-- One rendered task line (`task_line` / `child_line` in
`format_todoist_tasks`); child lines get a tab indent and reuse their
parent's resolved project name. -/
def renderTaskLine (today : Nat) (off : Int) (projectName : String)
    (indent : Bool) (t : Task) : String :=
  (if indent then "\t" else "") ++ "- [" ++ checkboxStr t ++ "] " ++
    timePrefixStr today off t ++ priorityTag t ++ spanStr t projectName ++
    displayContent t

/-- Finnish pluralization of the summary line. -/
def taskWord (n : Nat) : String := if n = 1 then "tehtävä" else "tehtävää"

/-- The leading summary line, counted over the task list as passed in
(before deduplication). -/
def summaryLine (isToday : Bool) (n : Nat) : String :=
  natRepr n ++ " " ++ taskWord n ++ (if isToday then " tänään.\n" else ".\n")

/-- The sequence of tasks that actually get a rendered line, in emission
order: deduplicate, then each sorted root followed by its sorted children. -/
def emittedTasks (tasks : List Task) : List Task :=
  let u := dedupTasks tasks
  (sortTasks (rootsOf u)).flatMap (fun r => r :: sortTasks (childrenOf u r.id))

/-- `format_todoist_tasks` as the list of lines it joins with newlines:
summary first, then the task lines in emission order. -/
def formatTaskLines (today : Nat) (off : Int) (projects : List (String × String))
    (isToday : Bool) (tasks : List Task) : List String :=
  let u := dedupTasks tasks
  summaryLine isToday tasks.length ::
    (sortTasks (rootsOf u)).flatMap (fun r =>
      renderTaskLine today off (lookupProj projects r.projectId) false r ::
        (sortTasks (childrenOf u r.id)).map
          (renderTaskLine today off (lookupProj projects r.projectId) true))

/-- `format_todoist_tasks`: the joined output string. -/
def formatTodoistTasks (today : Nat) (off : Int) (projects : List (String × String))
    (isToday : Bool) (tasks : List Task) : String :=
  String.intercalate "\n" (formatTaskLines today off projects isToday tasks)

/-- A task parsed back out of a rendered note line by `read_existing_note`:
group 1 (checkbox), group 2 (the `data-id` digits), group 3 (the span body),
and the stripped raw line. -/
structure NoteRec where
  id : String
  content : String
  completed : Bool
  raw : String
deriving DecidableEq

/-- Consume the literal `l` at the head of `s`, returning the remainder. -/
def litAt : List Char → List Char → Option (List Char)
  | [], s => some s
  | _ :: _, [] => none
  | l :: ls, c :: cs => if c = l then litAt ls cs else none

/-- The literal the lazy gap of the note regex must reach:
`<span data-id="`. -/
def spanOpenLit : List Char := "<span data-id=\"".toList

/-- The literal closing the capture: `</span>`. -/
def closeSpanLit : List Char := "</span>".toList

/-- The regex fragment `(.*?)</span>`: capture lazily up to the first
`</span>`, never crossing a newline (`.` does not match `\n`). -/
def capToClose : List Char → Option (List Char)
  | [] => none
  | c :: cs =>
    if (litAt closeSpanLit (c :: cs)).isSome then some []
    else if c = '\n' then none
    else (capToClose cs).map (fun r => c :: r)

/-- The regex fragment `.*?>(.*?)</span>`: lazily reach a `>` whose
continuation succeeds, with backtracking to later `>` characters on
failure. -/
def stageGt : List Char → Option (List Char)
  | [] => none
  | c :: cs =>
    if c = '>' then
      match capToClose cs with
      | some cap => some cap
      | none => stageGt cs
    else if c = '\n' then none
    else stageGt cs

/-- The regex fragment `(\d+)".*?>(.*?)</span>` after the opening literal:
greedily read the id digits (shorter splits of `\d+` cannot help since a
digit never equals the following `"`), require the closing quote, then run
the tail stages.  Returns (id digits, captured span body). -/
def idThen (s : List Char) : Option (String × String) :=
  if (s.takeWhile isDigitCh).isEmpty then none
  else
    match s.dropWhile isDigitCh with
    | '"' :: rest =>
      (stageGt rest).map (fun cap => (String.mk (s.takeWhile isDigitCh), String.mk cap))
    | _ => none

/-- The regex fragment `.*?<span data-id="(\d+)".*?>(.*?)</span>`: lazily
reach an occurrence of the opening literal whose continuation succeeds,
backtracking to later occurrences on failure, never crossing a newline. -/
def stageSpan : List Char → Option (String × String)
  | [] => none
  | c :: cs =>
    match litAt spanOpenLit (c :: cs) with
    | some rest =>
      match idThen rest with
      | some r => some r
      | none => if c = '\n' then none else stageSpan cs
    | none => if c = '\n' then none else stageSpan cs

/-- One anchored attempt of the note regex
`- \[([ x])\] .*?<span data-id="(\d+)".*?>(.*?)</span>` at the current
position: returns (completed, id digits, captured span body). -/
def matchCheck (s : List Char) : Option (Bool × String × String) :=
  match litAt "- [".toList s with
  | none => none
  | some r1 =>
    match r1 with
    | [] => none
    | c :: r2 =>
      if c = ' ' || c = 'x' then
        match litAt "] ".toList r2 with
        | none => none
        | some r3 => (stageSpan r3).map (fun p => (c = 'x', p.1, p.2))
      else none

/-- `re.search`: try the anchored match at each position, leftmost first. -/
def searchLine : List Char → Option (Bool × String × String)
  | [] => none
  | c :: cs =>
    match matchCheck (c :: cs) with
    | some r => some r
    | none => searchLine cs

/-- One line of `read_existing_note`: on a regex match, the NoteRec built
from the capture groups and the stripped line. -/
def parseNoteLine (line : String) : Option NoteRec :=
  (searchLine line.toList).map (fun r =>
    { id := r.2.1, content := r.2.2, completed := r.1, raw := pyStrip line })

/-- `read_existing_note` over the note's lines: keep every line the pattern
matches. -/
def readExistingNote (lines : List String) : List NoteRec :=
  lines.filterMap parseNoteLine

/-- Python `line.startswith('>')`. -/
def startsWithGt (s : String) : Bool :=
  match s.toList with
  | c :: _ => c = '>'
  | [] => false

/-- Substring containment, Python's `needle in s`. -/
def containsSub (needle : List Char) : List Char → Bool
  | [] => hasPre needle []
  | c :: cs => hasPre needle (c :: cs) || containsSub needle cs

/-- The sync opt-out marker phrase. -/
def syncStopMarker : String := "Synkronointi lopetettu"

/-- The opt-out scan of `sync_tasks_with_todoist` / `check_sync_disabled`:
some non-blockquote line contains the marker phrase. -/
def syncDisabledLines (lines : List String) : Bool :=
  lines.any (fun l => !startsWithGt l && containsSub syncStopMarker.toList l.toList)

/-- A remote write issued during reconciliation: the `close` / `reopen`
endpoint invoked for a task id. -/
inductive SyncAction
  | close (id : Nat)
  | reopen (id : Nat)
deriving DecidableEq

/-- The task id an action writes to. -/
def SyncAction.taskId : SyncAction → Nat
  | .close i => i
  | .reopen i => i

/-- The inner loop of `sync_tasks_with_todoist` for one note task: scan the
remote tasks; on an id match with differing completion flags, adopt the
remote flag when the completed-items feed has a timestamp for the id,
otherwise emit the close/reopen write matching the note's state.  `items`
is the `(str(task_id), completed_at)` map from
`sync/v9/completed/get_all`. -/
def syncOneGo (items : List (String × String)) (n : NoteRec) :
    List Task → NoteRec × List SyncAction
  | [] => (n, [])
  | rt :: rest =>
    if n.id = natRepr rt.id then
      if n.completed ≠ rt.completed then
        if items.any (fun it => it.1 = n.id) then
          syncOneGo items { n with completed := rt.completed } rest
        else
          let r := syncOneGo items n rest
          (r.1, (if n.completed then SyncAction.close rt.id else SyncAction.reopen rt.id) :: r.2)
      else syncOneGo items n rest
    else syncOneGo items n rest

/-- `sync_tasks_with_todoist`: abort (no writes, notes untouched) when the
note opts out or the completed-items fetch fails; otherwise reconcile each
note task independently against the remote list, returning the updated
note records and every remote write issued. -/
def syncTasksWithTodoist (noteLines : List String) (noteTasks : List NoteRec)
    (todoistTasks : List Task) (completedFetch : Except Unit (List (String × String))) :
    List NoteRec × List SyncAction :=
  if syncDisabledLines noteLines then (noteTasks, [])
  else
    match completedFetch with
    | .error _ => (noteTasks, [])
    | .ok items =>
      (noteTasks.map (fun n => (syncOneGo items n todoistTasks).1),
       noteTasks.flatMap (fun n => (syncOneGo items n todoistTasks).2))

/-- One entry of the `sync/v9/completed/get_all` feed, with the fields
`get_completed_tasks` reads (`priority`/`project_id`/`parent_id` may be
absent from the minimal event record). -/
structure CompletedItem where
  taskId : Nat
  completedAt : String
  content : String
  priority : Option Nat
  projectId : Option String
  parentId : Option Nat
deriving DecidableEq

/-- The transport oracle: each remote GET the fetch functions issue, as a
value or a raised `requests.exceptions.RequestException`.  `taskById` is the
per-item task fetch of `get_completed_tasks`, where `ok none` models a
non-200 response (no raise) and `error` a transport failure. -/
structure Transport where
  todayTasks : Except Unit (List Task)
  allTasks : Except Unit (List Task)
  completedAll : Except Unit (List CompletedItem)
  taskById : Nat → Except Unit (Option Task)
  backlogTasks : Except Unit (List Task)
  futureTasks : Except Unit (List Task)

/-- Python `s.startswith(pre)`. -/
def strStarts (pre s : String) : Bool := hasPre pre.toList s.toList

/-- The fallback minimal task record built from a completed-items entry when
the original task can no longer be fetched. -/
def fallbackTask (it : CompletedItem) : Task :=
  { id := it.taskId, content := it.content, completed := true,
    priority := it.priority.getD 1, projectId := it.projectId,
    parentId := it.parentId, dueDatetime := none, durationMin := none }

/-- Body of `get_completed_tasks` (inside its `try`): completed feed, all
tasks, then for each item completed today either the re-fetched full record
(marked completed, followed by its completed subtasks) or the fallback
record. -/
def getCompletedTasksE (tr : Transport) (todayStr : String) : Except Unit (List Task) :=
  match tr.completedAll with
  | .error e => .error e
  | .ok completedData =>
    match tr.allTasks with
    | .error e => .error e
    | .ok all =>
      (completedData.filter (fun it => strStarts todayStr it.completedAt)).foldlM
        (fun acc it =>
          match tr.taskById it.taskId with
          | .error e => .error e
          | .ok (some td) =>
            .ok (acc ++ ({ td with completed := true } ::
              (all.filter (fun s => s.parentId = some it.taskId)).map
                (fun s => { s with completed := true })))
          | .ok none => .ok (acc ++ [fallbackTask it])) []

/-- `get_completed_tasks`: the `except` clause returns `[]` on any raised
transport error. -/
def getCompletedTasks (tr : Transport) (todayStr : String) : List Task :=
  match getCompletedTasksE tr todayStr with
  | .ok v => v
  | .error _ => v0
where v0 : List Task := []

/-- Merging step shared by the today/future fetches: append the dateless
subtasks of the filtered set found in the full task list. -/
def addDatelessSubtasks (base all : List Task) : List Task :=
  let baseIds := base.map Task.id
  base ++ all.filter (fun t =>
    match t.parentId with
    | some p => baseIds.contains p && !baseIds.contains t.id
    | none => false)

/-- Child order of the today/future fetches: ISO datetime string ascending
with `''` (no due) first — `''` precedes every ISO string and equal-format
ISO string order is chronological, so the key is order-isomorphic to
`0 / s+1`. -/
def dueKeyStr (t : Task) : Nat :=
  match t.dueDatetime with
  | none => 0
  | some s => s + 1

/-- Hierarchy pass of the today/future fetches: roots in batch order, each
followed by its children sorted by `dueKeyStr`. -/
def orderHierarchy (tasks : List Task) : List Task :=
  (tasks.filter (fun t => t.parentId = none)).flatMap (fun r =>
    r :: sortBy (fun a b => decide (dueKeyStr a ≤ dueKeyStr b)) (childrenOf tasks r.id))

/-- Body of `get_todoist_tasks` (inside its `try`): today's tasks, dateless
subtasks, hierarchy ordering, and the completed tasks appended (the source
calls `get_completed_tasks` twice — once for logging, once appended to a
dead local — each a fresh round of requests inside the same `try`). -/
def getTodoistTasksE (tr : Transport) (todayStr : String) : Except Unit (List Task) :=
  match tr.todayTasks with
  | .error e => .error e
  | .ok today =>
    match tr.allTasks with
    | .error e => .error e
    | .ok all =>
      match getCompletedTasksE tr todayStr with
      | .error e => .error e
      | .ok completed =>
        match getCompletedTasksE tr todayStr with
        | .error e => .error e
        | .ok _ =>
          .ok (orderHierarchy (addDatelessSubtasks today all) ++ completed)

/-- `get_todoist_tasks`: `[]` on any raised transport error. -/
def getTodoistTasks (tr : Transport) (todayStr : String) : List Task :=
  match getTodoistTasksE tr todayStr with
  | .ok v => v
  | .error _ => v0
where v0 : List Task := []

/-- Priority-descending stable sort (`sort(key=priority, reverse=True)`). -/
def sortByPriorityDesc (l : List Task) : List Task :=
  sortBy (fun a b => decide (b.priority ≤ a.priority)) l

/-- Body of `get_backlog_tasks` (inside its `try`): overdue/no-date tasks
minus subtasks of today's tasks, sorted by priority descending. -/
def getBacklogTasksE (tr : Transport) : Except Unit (List Task) :=
  match tr.backlogTasks with
  | .error e => .error e
  | .ok backlog =>
    match tr.todayTasks with
    | .error e => .error e
    | .ok today =>
      .ok (sortByPriorityDesc (backlog.filter (fun t =>
        !(match t.parentId with
          | some p => (today.map Task.id).contains p
          | none => false))))

/-- `get_backlog_tasks`: `[]` on any raised transport error. -/
def getBacklogTasks (tr : Transport) : List Task :=
  match getBacklogTasksE tr with
  | .ok v => v
  | .error _ => v0
where v0 : List Task := []

/-- Body of `get_future_tasks` (inside its `try`): future tasks, dateless
subtasks, hierarchy ordering, then priority-descending sort. -/
def getFutureTasksE (tr : Transport) : Except Unit (List Task) :=
  match tr.futureTasks with
  | .error e => .error e
  | .ok future =>
    match tr.allTasks with
    | .error e => .error e
    | .ok all =>
      .ok (sortByPriorityDesc (orderHierarchy (addDatelessSubtasks future all)))

/-- `get_future_tasks`: `[]` on any raised transport error. -/
def getFutureTasks (tr : Transport) : List Task :=
  match getFutureTasksE tr with
  | .ok v => v
  | .error _ => v0
where v0 : List Task := []

/-- Fuelled model of `re.sub(r'\s+', ' ', s)`: replace each maximal
whitespace run by one space. -/
def collapseWsAux : Nat → List Char → List Char
  | 0, s => s
  | _ + 1, [] => []
  | fuel + 1, c :: rest =>
    if isPySpace c then ' ' :: collapseWsAux fuel (rest.dropWhile isPySpace)
    else c :: collapseWsAux fuel rest

/-- Title normalization of `find_similar_todoist_task`:
`re.sub(r'\s+', ' ', title.lower().strip())` then removal of the lower-case
import-origin suffix. -/
def cleanTitle (s : String) : String :=
  let base := collapseWsAux (s.toList.length + 1) (pyStripList (s.toList.map pyLower))
  replaceAll " @google-kalenterin tapahtuma" (String.mk base)

/-- `find_similar_todoist_task`: scan all current remote tasks; a task with
a `due.datetime` on the event's calendar date is a duplicate when the
normalized titles match exactly, or when the similarity oracle exceeds 0.7
and the start times are within five minutes (300 seconds; Python's
`/60 <= 5` float test on an integral second count).  `sim` abstracts
`difflib.SequenceMatcher(None, ·, ·).ratio()`, an external-library
function, as a rational-valued oracle. -/
def findSimilarTodoistTask (sim : String → String → ℚ) (eventTitle : String)
    (startDt : Nat) (allTasks : List Task) : Bool :=
  let ce := cleanTitle eventTitle
  allTasks.any (fun task =>
    let tt := cleanTitle task.content
    match task.dueDatetime with
    | none => false
    | some td =>
      if epochDay td = epochDay startDt then
        tt = ce ||
          ((7 : ℚ) / 10 < sim ce tt && (td : Int) - (startDt : Int) ≤ 300 &&
            (startDt : Int) - (td : Int) ≤ 300)
      else false)

/-- A calendar event as `create_todoist_task` reads it: `start`/`end` are
`some` exactly when the event has a `dateTime` (not an all-day `date`). -/
structure CalEvent where
  id : String
  summary : String
  startDt : Option Nat
  endDt : Option Nat
deriving DecidableEq

/-- One idempotency-log record `eventId|title|date` (date as an epoch
day). -/
structure SyncedRec where
  eventId : String
  title : String
  date : Nat
deriving DecidableEq

/-- The remote task creation request `create_todoist_task` would POST. -/
structure NewTask where
  content : String
  dueDatetime : Nat
  projectId : String
  durationMin : Int
deriving DecidableEq

/-- `create_todoist_task` as its effects: the idempotency-log appends and
the creation request, if any.  `now` parameterizes
`datetime.now(timezone.utc)`; `fetch` is the all-tasks GET used by the
duplicate check (its failure aborts the event); `createOk` models whether
the creation POST returns 200 (the log entry is only written then). -/
def createTodoistTask (now : Nat) (sim : String → String → ℚ)
    (fetch : Except Unit (List Task)) (e : CalEvent) (projectId : String)
    (dryRun : Bool) (createOk : Bool) : List SyncedRec × Option NewTask :=
  match e.startDt, e.endDt with
  | some s, some en =>
    if now + 365 * 86400 < s then ([], none)
    else
      match fetch with
      | .error _ => ([], none)
      | .ok allTasks =>
        let rec0 : SyncedRec := { eventId := e.id, title := e.summary, date := epochDay s }
        if findSimilarTodoistTask sim e.summary s allTasks then ([rec0], none)
        else if dryRun then ([rec0], none)
        else
          let nt : NewTask :=
            { content := e.summary, dueDatetime := s,
              projectId := projectId, durationMin := ((en : Int) - (s : Int)) / 60 }
          ((if createOk then [rec0] else []), some nt)
  | _, _ => ([], none)

/-- The fuzzy existence check as the claim words it: duplicate when either
(a) normalized titles match exactly on the same calendar date, or (b) the
similarity ratio exceeds 0.7 and the start times are within five minutes —
with no same-date requirement on branch (b). -/
def findSimilarClaim (sim : String → String → ℚ) (eventTitle : String)
    (startDt : Nat) (allTasks : List Task) : Bool :=
  let ce := cleanTitle eventTitle
  allTasks.any (fun task =>
    let tt := cleanTitle task.content
    match task.dueDatetime with
    | none => false
    | some td =>
      (epochDay td = epochDay startDt && tt = ce) ||
        ((7 : ℚ) / 10 < sim ce tt && (td : Int) - (startDt : Int) ≤ 300 &&
          (startDt : Int) - (td : Int) ≤ 300))

/-- The precedence relation claimed for tasks of one parent group: an
incomplete task precedes a completed one; among incomplete tasks strictly
higher priority precedes; among equal completion and priority an earlier
scheduled time precedes, and a scheduled task precedes an unscheduled
one. -/
def claimPrecedes (a b : Task) : Prop :=
  (a.completed = false ∧ b.completed = true) ∨
    (a.completed = false ∧ b.completed = false ∧ b.priority < a.priority) ∨
    (a.completed = b.completed ∧ a.priority = b.priority ∧
      (∃ sa, a.dueDatetime = some sa) ∧
      (b.dueDatetime = none ∨ timeVal a < timeVal b))

/-- Compact task constructor for concrete examples. -/
def mkTask (id : Nat) (content : String) (completed : Bool) (priority : Nat)
    (projectId : Option String) (parentId : Option Nat)
    (dueDatetime : Option Nat) (durationMin : Option Nat) : Task :=
  { id := id, content := content, completed := completed, priority := priority,
    projectId := projectId, parentId := parentId, dueDatetime := dueDatetime,
    durationMin := durationMin }

/-! ## Lemmas about the stable insertion sort -/

theorem insertBy_perm (le : Task → Task → Bool) (t : Task) (l : List Task) :
    List.Perm (insertBy le t l) (t :: l) := by
  induction l with
  | nil => exact List.Perm.refl _
  | cons x xs ih =>
    by_cases hxt : le x t = true
    · have he : insertBy le t (x :: xs) = x :: insertBy le t xs := by
        simp [insertBy, hxt]
      rw [he]
      exact (List.Perm.cons x ih).trans (List.Perm.swap t x xs)
    · have he : insertBy le t (x :: xs) = t :: x :: xs := by
        simp [insertBy, hxt]
      rw [he]

theorem sortBy_perm_aux (le : Task → Task → Bool) (l : List Task) :
    ∀ acc, List.Perm (l.foldl (fun a t => insertBy le t a) acc) (acc ++ l) := by
  induction l with
  | nil => intro acc; simp
  | cons t ts ih =>
    intro acc
    have h1 : List.Perm ((t :: ts).foldl (fun a u => insertBy le u a) acc)
        (insertBy le t acc ++ ts) := by
      simpa using ih (insertBy le t acc)
    have h2 : List.Perm (insertBy le t acc ++ ts) ((t :: acc) ++ ts) :=
      (insertBy_perm le t acc).append_right ts
    have h3 : List.Perm ((t :: acc) ++ ts) (acc ++ t :: ts) := List.perm_middle.symm
    exact (h1.trans h2).trans h3

theorem sortBy_perm (le : Task → Task → Bool) (l : List Task) :
    List.Perm (sortBy le l) l := by
  simpa using sortBy_perm_aux le l []

theorem mem_sortBy {le : Task → Task → Bool} {l : List Task} {x : Task} :
    x ∈ sortBy le l ↔ x ∈ l := (sortBy_perm le l).mem_iff

theorem length_sortBy (le : Task → Task → Bool) (l : List Task) :
    (sortBy le l).length = l.length := (sortBy_perm le l).length_eq

theorem sorted_insertBy (le : Task → Task → Bool)
    (htot : ∀ a b, le a b = false → le b a = true)
    (htrans : ∀ a b c, le a b = true → le b c = true → le a c = true)
    (t : Task) (l : List Task) (h : l.Sorted (fun a b => le a b = true)) :
    (insertBy le t l).Sorted (fun a b => le a b = true) := by
  induction l with
  | nil => simp [insertBy]
  | cons x xs ih =>
    rw [List.sorted_cons] at h
    obtain ⟨hx, hs⟩ := h
    by_cases hxt : le x t = true
    · have he : insertBy le t (x :: xs) = x :: insertBy le t xs := by
        simp [insertBy, hxt]
      rw [he, List.sorted_cons]
      refine ⟨?_, ih hs⟩
      intro y hy
      rcases List.mem_cons.mp ((insertBy_perm le t xs).mem_iff.mp hy) with hy | hy
      · rw [hy]; exact hxt
      · exact hx y hy
    · have he : insertBy le t (x :: xs) = t :: x :: xs := by
        simp [insertBy, hxt]
      have htx : le t x = true := htot x t (by simpa using hxt)
      rw [he, List.sorted_cons]
      refine ⟨?_, by rw [List.sorted_cons]; exact ⟨hx, hs⟩⟩
      intro y hy
      rcases List.mem_cons.mp hy with hy | hy
      · rw [hy]; exact htx
      · exact htrans t x y htx (hx y hy)

theorem sorted_sortBy_aux (le : Task → Task → Bool)
    (htot : ∀ a b, le a b = false → le b a = true)
    (htrans : ∀ a b c, le a b = true → le b c = true → le a c = true)
    (l : List Task) :
    ∀ acc, acc.Sorted (fun a b => le a b = true) →
      (l.foldl (fun a t => insertBy le t a) acc).Sorted (fun a b => le a b = true) := by
  induction l with
  | nil => intro acc h; exact h
  | cons t ts ih =>
    intro acc h
    exact ih _ (sorted_insertBy le htot htrans t acc h)

theorem sorted_sortBy (le : Task → Task → Bool)
    (htot : ∀ a b, le a b = false → le b a = true)
    (htrans : ∀ a b c, le a b = true → le b c = true → le a c = true)
    (l : List Task) : (sortBy le l).Sorted (fun a b => le a b = true) :=
  sorted_sortBy_aux le htot htrans l [] (by simp)

/-! ## The sort key -/

theorem keyLE_refl (a : Task) : keyLE a a := by unfold keyLE; omega

theorem keyLE_total (a b : Task) : keyLE a b ∨ keyLE b a := by unfold keyLE; omega

theorem keyLE_trans {a b c : Task} (h1 : keyLE a b) (h2 : keyLE b c) : keyLE a c := by
  unfold keyLE at *; omega

theorem timeVal_of_some {a : Task} {s : Nat} (h : a.dueDatetime = some s) :
    timeVal a = ((s % 86400) / 3600) * 10000 + (((s % 86400) % 3600) / 60) * 100 + s % 60 := by
  unfold timeVal; rw [h]

theorem timeVal_of_none {a : Task} (h : a.dueDatetime = none) : timeVal a = 999999 := by
  unfold timeVal; rw [h]

theorem timeVal_lt_sentinel {a : Task} {s : Nat} (h : a.dueDatetime = some s) :
    timeVal a < 999999 := by
  rw [timeVal_of_some h]; omega

theorem completedBit_of_false {t : Task} (h : t.completed = false) : completedBit t = 0 := by
  simp [completedBit, h]

theorem completedBit_of_true {t : Task} (h : t.completed = true) : completedBit t = 1 := by
  simp [completedBit, h]

theorem completedBit_congr {a b : Task} (h : a.completed = b.completed) :
    completedBit a = completedBit b := by
  unfold completedBit; rw [h]

theorem claimPrecedes_not_keyLE {a b : Task} (h : claimPrecedes a b) : ¬ keyLE b a := by
  rcases h with ⟨h1, h2⟩ | ⟨h1, h2, h3⟩ | ⟨h1, h2, h3, h4⟩
  · have hca := completedBit_of_false h1
    have hcb := completedBit_of_true h2
    unfold keyLE; omega
  · have hca := completedBit_of_false h1
    have hcb := completedBit_of_false h2
    unfold keyLE; omega
  · have hc := completedBit_congr h1
    obtain ⟨sa, hsa⟩ := h3
    have hlt : timeVal a < timeVal b := by
      rcases h4 with h4 | h4
      · have hb := timeVal_of_none h4
        have := timeVal_lt_sentinel hsa
        omega
      · exact h4
    unfold keyLE; omega

theorem sorted_sortTasks (l : List Task) :
    (sortTasks l).Sorted (fun a b => decide (keyLE a b) = true) := by
  apply sorted_sortBy
  · intro a b hab
    rcases keyLE_total a b with h | h
    · simp [h] at hab
    · simpa using h
  · intro a b c h1 h2
    simp only [decide_eq_true_eq] at *
    exact keyLE_trans h1 h2

/-- Claim C4: in the order `format_todoist_tasks` sorts every parent group
(the root list and each child list are sorted with the same `sort_key`), an
incomplete task precedes a completed one; among incomplete tasks one with
strictly greater priority precedes; among equal completion and priority an
earlier scheduled time precedes a later one and scheduled tasks precede
unscheduled ones. -/
theorem c4_group_ordering (l : List Task) (A B : Task) (h : claimPrecedes A B)
    (i j : Nat) (hi : i < (sortTasks l).length) (hj : j < (sortTasks l).length)
    (hA : (sortTasks l).get ⟨i, hi⟩ = A) (hB : (sortTasks l).get ⟨j, hj⟩ = B) :
    i < j := by
  have hpw := (List.pairwise_iff_get).mp (sorted_sortTasks l)
  by_contra hij
  have hnot := claimPrecedes_not_keyLE h
  rcases Nat.lt_or_ge j i with hji | hji
  · have := hpw ⟨j, hj⟩ ⟨i, hi⟩ hji
    rw [hA, hB] at this
    exact hnot (by simpa using this)
  · have : i = j := by omega
    subst this
    rw [hA] at hB
    subst hB
    exact hnot (keyLE_refl A)

/-- Witness for C4 at a concrete input: an incomplete task precedes a
completed one after sorting. -/
theorem c4_group_ordering_witness : (0 : Nat) < 1 := by
  refine c4_group_ordering
    [mkTask 1 "a" true 1 none none none none, mkTask 2 "b" false 1 none none none none]
    (mkTask 2 "b" false 1 none none none none)
    (mkTask 1 "a" true 1 none none none none)
    (Or.inl ⟨rfl, rfl⟩) 0 1 (by decide) (by decide) (by decide) (by decide)

/-! ## Lemmas about the dedup dictionary -/

theorem dedupInsert_of_not_mem (k : String) (t : Task) :
    ∀ acc, k ∉ acc.map Prod.fst → dedupInsert k t acc = acc ++ [(k, t)] := by
  intro acc
  induction acc with
  | nil => intro _; rfl
  | cons p rest ih =>
    intro h
    obtain ⟨k0, t0⟩ := p
    simp only [List.map_cons, List.mem_cons] at h
    push_neg at h
    have hk : k0 ≠ k := fun he => h.1 he.symm
    simp [dedupInsert, hk, ih h.2]

theorem dedupInsert_of_mem (k : String) (t : Task) :
    ∀ acc, k ∈ acc.map Prod.fst →
      ∃ acc1 t0 acc2, acc = acc1 ++ (k, t0) :: acc2 ∧ k ∉ acc1.map Prod.fst ∧
        dedupInsert k t acc = acc1 ++ (k, if t0.id < t.id then t else t0) :: acc2 := by
  intro acc
  induction acc with
  | nil => intro h; simp at h
  | cons p rest ih =>
    intro h
    obtain ⟨k0, t0⟩ := p
    by_cases hk : k0 = k
    · subst hk
      refine ⟨[], t0, rest, by simp, by simp, ?_⟩
      by_cases hlt : t0.id < t.id <;> simp [dedupInsert, hlt]
    · simp only [List.map_cons, List.mem_cons] at h
      rcases h with h | h
      · exact absurd h.symm hk
      · obtain ⟨acc1, t1, acc2, he, hnm, hi⟩ := ih h
        refine ⟨(k0, t0) :: acc1, t1, acc2, by rw [he]; simp, ?_, ?_⟩
        · simp only [List.map_cons, List.mem_cons]
          push_neg
          exact ⟨fun hc => hk hc.symm, hnm⟩
        · simp [dedupInsert, hk, hi]

theorem dedupInsert_keys (k : String) (t : Task) (acc : List (String × Task)) :
    (dedupInsert k t acc).map Prod.fst =
      if k ∈ acc.map Prod.fst then acc.map Prod.fst else acc.map Prod.fst ++ [k] := by
  by_cases h : k ∈ acc.map Prod.fst
  · obtain ⟨acc1, t0, acc2, he, _, hi⟩ := dedupInsert_of_mem k t acc h
    rw [if_pos h, hi, he]
    by_cases hc : t0.id < t.id <;> simp [hc]
  · rw [if_neg h, dedupInsert_of_not_mem k t acc h]
    simp

/-- The full invariant of the dedup fold: every stored pair is keyed by its
value's dedup key, its value occurs in the processed input, and the value's
id is maximal among processed tasks of that key; every processed task's key
is present; and keys are unique. -/
theorem dedupGo_spec (l : List Task) :
    ∀ (pr : List Task) (acc : List (String × Task)),
      (∀ p ∈ acc, p.1 = dedupKey p.2 ∧ p.2 ∈ pr ∧
        ∀ u ∈ pr, dedupKey u = p.1 → u.id ≤ p.2.id) →
      (∀ u ∈ pr, dedupKey u ∈ acc.map Prod.fst) →
      (acc.map Prod.fst).Nodup →
      (∀ p ∈ dedupGo acc l, p.1 = dedupKey p.2 ∧ p.2 ∈ pr ++ l ∧
        ∀ u ∈ pr ++ l, dedupKey u = p.1 → u.id ≤ p.2.id) ∧
      (∀ u ∈ pr ++ l, dedupKey u ∈ (dedupGo acc l).map Prod.fst) ∧
      ((dedupGo acc l).map Prod.fst).Nodup := by
  induction l with
  | nil =>
    intro pr acc hA hB hN
    simp only [dedupGo, List.append_nil]
    exact ⟨hA, hB, hN⟩
  | cons t ts ih =>
    intro pr acc hA hB hN
    have hstep : dedupGo acc (t :: ts) = dedupGo (dedupInsert (dedupKey t) t acc) ts := rfl
    have hApr : ∀ p ∈ dedupInsert (dedupKey t) t acc, p.1 = dedupKey p.2 ∧ p.2 ∈ pr ++ [t] ∧
        ∀ u ∈ pr ++ [t], dedupKey u = p.1 → u.id ≤ p.2.id := by
      by_cases hmem : dedupKey t ∈ acc.map Prod.fst
      · obtain ⟨acc1, t0, acc2, he, hnm1, hi⟩ := dedupInsert_of_mem (dedupKey t) t acc hmem
        have hknd : ((acc1 ++ (dedupKey t, t0) :: acc2).map Prod.fst).Nodup := by
          rw [← he]; exact hN
        simp only [List.map_append, List.map_cons] at hknd
        have hknd2 := (List.nodup_middle).mp hknd
        rw [List.nodup_cons] at hknd2
        have hkaway1 : dedupKey t ∉ acc1.map Prod.fst := fun hc => hknd2.1 (by simp [hc])
        have hkaway2 : dedupKey t ∉ acc2.map Prod.fst := fun hc => hknd2.1 (by simp [hc])
        intro p hp
        rw [hi] at hp
        rcases List.mem_append.mp hp with hp | hp
        · have hpacc : p ∈ acc := by rw [he]; exact List.mem_append_left _ hp
          obtain ⟨h1, h2, h3⟩ := hA p hpacc
          refine ⟨h1, List.mem_append_left _ h2, ?_⟩
          intro u hu hku
          rcases List.mem_append.mp hu with hu | hu
          · exact h3 u hu hku
          · exfalso
            rw [List.mem_singleton.mp hu] at hku
            have hxx : p.1 ∈ acc1.map Prod.fst := List.mem_map.mpr ⟨p, hp, rfl⟩
            rw [← hku] at hxx
            exact hkaway1 hxx
        · rcases List.mem_cons.mp hp with hp | hp
          · have ht0acc : (dedupKey t, t0) ∈ acc := by
              rw [he]; exact List.mem_append_right _ (List.mem_cons_self _ _)
            obtain ⟨h1, h2, h3⟩ := hA _ ht0acc
            have h1x : dedupKey t = dedupKey t0 := h1
            have h2x : t0 ∈ pr := h2
            have h3x : ∀ u ∈ pr, dedupKey u = dedupKey t → u.id ≤ t0.id := h3
            rw [hp]
            by_cases hlt : t0.id < t.id
            · rw [if_pos hlt]
              refine ⟨rfl, List.mem_append_right _ (by simp), ?_⟩
              intro u hu hku
              have hku2 : dedupKey u = dedupKey t := hku
              rcases List.mem_append.mp hu with hu | hu
              · have := h3x u hu hku2
                show u.id ≤ t.id
                omega
              · rw [List.mem_singleton.mp hu]
            · rw [if_neg hlt]
              refine ⟨h1x, List.mem_append_left _ h2x, ?_⟩
              intro u hu hku
              have hku2 : dedupKey u = dedupKey t := hku
              rcases List.mem_append.mp hu with hu | hu
              · exact h3x u hu hku2
              · rw [List.mem_singleton.mp hu]
                show t.id ≤ t0.id
                omega
          · have hpacc : p ∈ acc := by
              rw [he]; exact List.mem_append_right _ (List.mem_cons_of_mem _ hp)
            obtain ⟨h1, h2, h3⟩ := hA p hpacc
            refine ⟨h1, List.mem_append_left _ h2, ?_⟩
            intro u hu hku
            rcases List.mem_append.mp hu with hu | hu
            · exact h3 u hu hku
            · exfalso
              rw [List.mem_singleton.mp hu] at hku
              have hxx : p.1 ∈ acc2.map Prod.fst := List.mem_map.mpr ⟨p, hp, rfl⟩
              rw [← hku] at hxx
              exact hkaway2 hxx
      · rw [dedupInsert_of_not_mem _ _ _ hmem]
        intro p hp
        rcases List.mem_append.mp hp with hp | hp
        · obtain ⟨h1, h2, h3⟩ := hA p hp
          refine ⟨h1, List.mem_append_left _ h2, ?_⟩
          intro u hu hku
          rcases List.mem_append.mp hu with hu | hu
          · exact h3 u hu hku
          · exfalso
            rw [List.mem_singleton.mp hu] at hku
            have hxx : p.1 ∈ acc.map Prod.fst := List.mem_map.mpr ⟨p, hp, rfl⟩
            rw [← hku] at hxx
            exact hmem hxx
        · rw [List.mem_singleton.mp hp]
          refine ⟨rfl, List.mem_append_right _ (by simp), ?_⟩
          intro u hu hku
          have hku2 : dedupKey u = dedupKey t := hku
          rcases List.mem_append.mp hu with hu | hu
          · exact absurd (hku2 ▸ hB u hu) hmem
          · rw [List.mem_singleton.mp hu]
    have hBpr : ∀ u ∈ pr ++ [t], dedupKey u ∈ (dedupInsert (dedupKey t) t acc).map Prod.fst := by
      intro u hu
      rw [dedupInsert_keys]
      rcases List.mem_append.mp hu with hu | hu
      · have := hB u hu
        split <;> simp [this]
      · rw [List.mem_singleton.mp hu]
        split
        · assumption
        · simp
    have hNpr : ((dedupInsert (dedupKey t) t acc).map Prod.fst).Nodup := by
      rw [dedupInsert_keys]
      split
      · exact hN
      · rename_i hnm
        simp [List.nodup_append, hN, hnm]
    have hmain := ih (pr ++ [t]) (dedupInsert (dedupKey t) t acc) hApr hBpr hNpr
    rw [hstep]
    simpa using hmain

/-- Claim C3: after deduplication, a task survives exactly when its id is
maximal among input tasks with the same `(normalized_content, parent_id)`
key (so with distinct ids, collisions keep precisely the numerically largest
id and unique keys are all kept); the surviving keys are pairwise distinct,
and every survivor comes from the input. -/
theorem c3_dedup (tasks : List Task) (hids : (tasks.map Task.id).Nodup) :
    (∀ t ∈ tasks, (t ∈ dedupTasks tasks ↔
      ∀ u ∈ tasks, dedupKey u = dedupKey t → u.id ≤ t.id)) ∧
    ((dedupTasks tasks).map dedupKey).Nodup ∧
    (∀ t ∈ dedupTasks tasks, t ∈ tasks) := by
  have hspec := dedupGo_spec tasks [] [] (by simp) (by simp) (by simp)
  simp only [List.nil_append] at hspec
  obtain ⟨hA, hB, hN⟩ := hspec
  have hinj := List.inj_on_of_nodup_map hids
  have hmemval : ∀ t ∈ dedupTasks tasks, t ∈ tasks := by
    intro t ht
    obtain ⟨p, hp, hpt⟩ := List.mem_map.mp ht
    exact hpt ▸ (hA p hp).2.1
  refine ⟨?_, ?_, hmemval⟩
  · intro t htin
    constructor
    · intro ht u hu hku
      obtain ⟨p, hp, hpt⟩ := List.mem_map.mp ht
      obtain ⟨h1, _, h3⟩ := hA p hp
      have h4 : dedupKey u = p.1 := by rw [hku, ← hpt] at *; exact h1.symm ▸ rfl
      have h5 := h3 u hu h4
      rw [hpt] at h5
      exact h5
    · intro hmax
      have hkey := hB t htin
      obtain ⟨p, hp, hpk⟩ := List.mem_map.mp hkey
      obtain ⟨h1, h2, h3⟩ := hA p hp
      have hle1 : p.2.id ≤ t.id := hmax p.2 h2 (by rw [← h1]; exact hpk)
      have hle2 : t.id ≤ p.2.id := h3 t htin hpk.symm
      have hteq : t = p.2 := hinj htin h2 (by omega)
      rw [hteq]
      exact List.mem_map.mpr ⟨p, hp, rfl⟩
  · have hmapeq : (dedupTasks tasks).map dedupKey = (dedupGo [] tasks).map Prod.fst := by
      unfold dedupTasks
      rw [List.map_map]
      apply List.map_congr_left
      intro p hp
      exact ((hA p hp).1).symm
    rw [hmapeq]
    exact hN

/-- Witness for C3: two tasks with identical content and no parent, ids 100
and 200 — id 100 does not survive deduplication. -/
theorem c3_dedup_witness :
    mkTask 100 "Buy milk" false 1 none none none none ∉
      dedupTasks [mkTask 100 "Buy milk" false 1 none none none none,
        mkTask 200 "Buy milk" false 1 none none none none] := by
  intro hmem
  have h := ((c3_dedup [mkTask 100 "Buy milk" false 1 none none none none,
      mkTask 200 "Buy milk" false 1 none none none none] (by decide)).1
    (mkTask 100 "Buy milk" false 1 none none none none) (by decide)).mp hmem
  have h2 := h (mkTask 200 "Buy milk" false 1 none none none none) (by decide) (by decide)
  have h3 : (200 : Nat) ≤ 100 := h2
  omega

/-! ## Consequences of the dedup invariant used by the emission lemmas -/

theorem dedupTasks_spec (l : List Task) :
    (∀ t ∈ dedupTasks l, t ∈ l ∧ ∀ u ∈ l, dedupKey u = dedupKey t → u.id ≤ t.id) ∧
    (∀ u ∈ l, ∃ t ∈ dedupTasks l, dedupKey t = dedupKey u) ∧
    ((dedupTasks l).map dedupKey).Nodup := by
  have hspec := dedupGo_spec l [] [] (by simp) (by simp) (by simp)
  simp only [List.nil_append] at hspec
  obtain ⟨hA, hB, hN⟩ := hspec
  have hmapeq : (dedupTasks l).map dedupKey = (dedupGo [] l).map Prod.fst := by
    unfold dedupTasks
    rw [List.map_map]
    apply List.map_congr_left
    intro p hp
    exact ((hA p hp).1).symm
  refine ⟨?_, ?_, hmapeq ▸ hN⟩
  · intro t ht
    obtain ⟨p, hp, hpt⟩ := List.mem_map.mp ht
    obtain ⟨h1, h2, h3⟩ := hA p hp
    subst hpt
    refine ⟨h2, ?_⟩
    intro u hu hku
    exact h3 u hu (by rw [hku, h1])
  · intro u hu
    have := hB u hu
    rw [← hmapeq] at this
    obtain ⟨t, ht, hkt⟩ := List.mem_map.mp this
    exact ⟨t, ht, hkt⟩

theorem dedupTasks_subset {l : List Task} {t : Task} (h : t ∈ dedupTasks l) : t ∈ l :=
  ((dedupTasks_spec l).1 t h).1

theorem dedupTasks_nodup (l : List Task) : (dedupTasks l).Nodup :=
  List.Nodup.of_map dedupKey (dedupTasks_spec l).2.2

theorem dedupTasks_ids_nodup (l : List Task) (h : (l.map Task.id).Nodup) :
    ((dedupTasks l).map Task.id).Nodup := by
  apply (dedupTasks_nodup l).map_on
  intro x hx y hy hxy
  exact List.inj_on_of_nodup_map h (dedupTasks_subset hx) (dedupTasks_subset hy) hxy

theorem dedup_length_lt {α : Type} [DecidableEq α] :
    ∀ m : List α, ¬ m.Nodup → m.dedup.length < m.length := by
  intro m
  induction m with
  | nil => simp
  | cons a l ih =>
    intro h
    by_cases ha : a ∈ l
    · rw [List.dedup_cons_of_mem ha]
      have := (List.dedup_sublist l).length_le
      simp only [List.length_cons]
      omega
    · rw [List.dedup_cons_of_not_mem ha]
      have hnd : ¬ l.Nodup := fun hl => h (List.nodup_cons.mpr ⟨ha, hl⟩)
      have := ih hnd
      simp only [List.length_cons]
      omega

theorem nodup_sub_card {α : Type} [DecidableEq α] (l1 l2 : List α)
    (h1 : l1.Nodup) (hsub : ∀ x ∈ l1, x ∈ l2) : l1.length ≤ l2.dedup.length := by
  have hfin : l1.toFinset ⊆ l2.toFinset := by
    intro a ha
    simp only [List.mem_toFinset] at *
    exact hsub a ha
  have h2 := Finset.card_le_card hfin
  rw [List.toFinset_card_of_nodup h1, List.card_toFinset] at h2
  exact h2

theorem dedupTasks_length_le (l : List Task) : (dedupTasks l).length ≤ l.length := by
  have h1 : (dedupTasks l).length = ((dedupTasks l).map dedupKey).length := by
    rw [List.length_map]
  have h2 := nodup_sub_card ((dedupTasks l).map dedupKey) (l.map dedupKey)
    (dedupTasks_spec l).2.2 ?_
  · have h3 := (List.dedup_sublist (l.map dedupKey)).length_le
    rw [List.length_map] at h3
    omega
  · intro x hx
    obtain ⟨t, ht, hkt⟩ := List.mem_map.mp hx
    exact List.mem_map.mpr ⟨t, dedupTasks_subset ht, hkt⟩

theorem dedupTasks_length_lt (l : List Task) (h : ¬ (l.map dedupKey).Nodup) :
    (dedupTasks l).length < l.length := by
  have h1 : (dedupTasks l).length = ((dedupTasks l).map dedupKey).length := by
    rw [List.length_map]
  have h2 := nodup_sub_card ((dedupTasks l).map dedupKey) (l.map dedupKey)
    (dedupTasks_spec l).2.2 ?_
  · have h3 := dedup_length_lt (l.map dedupKey) h
    rw [List.length_map] at h3
    omega
  · intro x hx
    obtain ⟨t, ht, hkt⟩ := List.mem_map.mp hx
    exact List.mem_map.mpr ⟨t, dedupTasks_subset ht, hkt⟩

/-! ## Claim C2: orphan children -/

/-- Counterexample to C2: a single task whose `parent_id` (999) matches no
task in the batch produces no rendered line at all — the formatter output is
just the summary line. -/
theorem c2_counterexample :
    (mkTask 1 "Orphan" false 1 none (some 999) none none).parentId = some 999 ∧
    999 ∉ ([mkTask 1 "Orphan" false 1 none (some 999) none none].map Task.id) ∧
    formatTaskLines 0 0 [] true [mkTask 1 "Orphan" false 1 none (some 999) none none] =
      [summaryLine true 1] := by
  refine ⟨rfl, by decide, rfl⟩

/-- Amended C2: a child whose declared parent id is absent from the batch is
silently dropped — the formatter emits lines only for root tasks and for
children of root tasks present in the batch, so no line is emitted for the
orphan. -/
theorem c2_orphan_dropped (tasks : List Task) (t : Task) (p : Nat)
    (hp : t.parentId = some p) (habs : p ∉ tasks.map Task.id) :
    t ∉ emittedTasks tasks := by
  intro hmem
  unfold emittedTasks at hmem
  obtain ⟨r, hr, hres⟩ := List.mem_flatMap.mp hmem
  have hrmem : r ∈ rootsOf (dedupTasks tasks) := mem_sortBy.mp hr
  have hrroot : r.parentId = none := by
    have := List.mem_filter.mp hrmem
    simpa using this.2
  rcases List.mem_cons.mp hres with hres | hres
  · rw [hres] at hp
    rw [hrroot] at hp
    exact Option.noConfusion hp
  · have htch : t ∈ childrenOf (dedupTasks tasks) r.id := mem_sortBy.mp hres
    have htp : t.parentId = some r.id := by
      have := List.mem_filter.mp htch
      simpa using this.2
    have hrid : r.id = p := by
      rw [hp] at htp
      exact (Option.some_injective _ htp).symm
    have hrtasks : r ∈ tasks := dedupTasks_subset (List.mem_filter.mp hrmem).1
    exact habs (hrid ▸ List.mem_map.mpr ⟨r, hrtasks, rfl⟩)

/-- Witness for the amended C2 at a concrete input. -/
theorem c2_orphan_dropped_witness :
    mkTask 1 "Orphan" false 1 none (some 999) none none ∉
      emittedTasks [mkTask 1 "Orphan" false 1 none (some 999) none none] :=
  c2_orphan_dropped _ _ 999 rfl (by decide)

/-! ## Claim C10: the summary count versus the rendered lines -/

theorem length_sortTasks (l : List Task) : (sortTasks l).length = l.length :=
  length_sortBy _ l

theorem length_filter_add_disjoint (p q : Task → Bool)
    (hd : ∀ x, p x = true → q x = false) :
    ∀ l : List Task,
      (l.filter p).length + (l.filter q).length =
        (l.filter (fun x => p x || q x)).length := by
  intro l
  induction l with
  | nil => rfl
  | cons a l ih =>
    by_cases hpa : p a = true
    · have hqa : ¬ q a = true := by rw [hd a hpa]; exact Bool.false_ne_true
      rw [List.filter_cons_of_pos hpa, List.filter_cons_of_neg hqa,
        List.filter_cons_of_pos (by rw [hpa, Bool.true_or])]
      simp only [List.length_cons]
      omega
    · by_cases hqa : q a = true
      · rw [List.filter_cons_of_neg hpa, List.filter_cons_of_pos hqa,
          List.filter_cons_of_pos ?_]
        · simp only [List.length_cons]
          omega
        · rw [hqa, Bool.or_true]
      · rw [List.filter_cons_of_neg hpa, List.filter_cons_of_neg hqa,
          List.filter_cons_of_neg ?_]
        · exact ih
        · rw [Bool.or_eq_true]
          rintro (hc | hc)
          · exact hpa hc
          · exact hqa hc

theorem length_filter_lt_of_mem (p : Task → Bool) {l : List Task} {x : Task}
    (hx : x ∈ l) (hpx : p x = false) : (l.filter p).length < l.length := by
  induction l with
  | nil => simp at hx
  | cons a l ih =>
    rcases List.mem_cons.mp hx with hx | hx
    · subst hx
      rw [List.filter_cons_of_neg (by rw [hpx]; exact Bool.false_ne_true)]
      have := List.length_filter_le p l
      simp only [List.length_cons]
      omega
    · have h2 := ih hx
      by_cases hpa : p a = true
      · rw [List.filter_cons_of_pos hpa]
        simp only [List.length_cons]
        omega
      · rw [List.filter_cons_of_neg hpa]
        simp only [List.length_cons]
        omega

theorem child_count_sum (u : List Task) :
    ∀ rs : List Task, (rs.map Task.id).Nodup →
      ((rs.map (fun r => (childrenOf u r.id).length)).sum =
        (u.filter (fun c => rs.any (fun r => decide (c.parentId = some r.id)))).length) := by
  intro rs
  induction rs with
  | nil => intro _; simp
  | cons r rs ih =>
    intro hnd
    rw [List.map_cons, List.nodup_cons] at hnd
    have hdisj : ∀ x : Task, decide (x.parentId = some r.id) = true →
        (rs.any (fun q => decide (x.parentId = some q.id))) = false := by
      intro x hx
      rw [decide_eq_true_eq] at hx
      by_contra hc
      rw [Bool.not_eq_false, List.any_eq_true] at hc
      obtain ⟨q, hq, hxq⟩ := hc
      rw [decide_eq_true_eq, hx] at hxq
      have : r.id = q.id := Option.some_injective _ hxq
      exact hnd.1 (this ▸ List.mem_map.mpr ⟨q, hq, rfl⟩)
    have hstep := length_filter_add_disjoint
      (fun c => decide (c.parentId = some r.id))
      (fun c => rs.any (fun q => decide (c.parentId = some q.id))) hdisj u
    rw [List.map_cons, List.sum_cons, ih hnd.2]
    unfold childrenOf
    rw [hstep]
    rfl

theorem sum_map_one_add (g : Task → Nat) :
    ∀ rs : List Task, (rs.map (fun r => 1 + g r)).sum = rs.length + (rs.map g).sum := by
  intro rs
  induction rs with
  | nil => rfl
  | cons r rs ih =>
    simp only [List.map_cons, List.sum_cons, List.length_cons, ih]
    omega

theorem emittedTasks_length (tasks : List Task) :
    (emittedTasks tasks).length =
      (rootsOf (dedupTasks tasks)).length +
        ((rootsOf (dedupTasks tasks)).map
          (fun r => (childrenOf (dedupTasks tasks) r.id).length)).sum := by
  unfold emittedTasks
  rw [List.length_flatMap]
  have h1 : ((sortTasks (rootsOf (dedupTasks tasks))).map
      (List.length ∘ fun r => r :: sortTasks (childrenOf (dedupTasks tasks) r.id))) =
      ((sortTasks (rootsOf (dedupTasks tasks))).map
        (fun r => 1 + (childrenOf (dedupTasks tasks) r.id).length)) := by
    apply List.map_congr_left
    intro r _
    simp only [Function.comp_apply, List.length_cons, length_sortTasks]
    omega
  rw [h1, sum_map_one_add, length_sortTasks]
  congr 1
  exact List.Perm.sum_eq ((sortBy_perm _ _).map _)

theorem emitted_count_eq (tasks : List Task)
    (hids : (tasks.map Task.id).Nodup) :
    (emittedTasks tasks).length =
      ((dedupTasks tasks).filter (fun t =>
        decide (t.parentId = none) ||
          (rootsOf (dedupTasks tasks)).any
            (fun r => decide (t.parentId = some r.id)))).length := by
  rw [emittedTasks_length]
  have hrnd : ((rootsOf (dedupTasks tasks)).map Task.id).Nodup := by
    have hsub : List.Sublist ((rootsOf (dedupTasks tasks)).map Task.id)
        ((dedupTasks tasks).map Task.id) := (List.filter_sublist _).map Task.id
    exact (dedupTasks_ids_nodup tasks hids).sublist hsub
  rw [child_count_sum _ _ hrnd]
  have hroots : (rootsOf (dedupTasks tasks)).length =
      ((dedupTasks tasks).filter (fun t => decide (t.parentId = none))).length := rfl
  rw [hroots]
  apply length_filter_add_disjoint
  intro x hx
  rw [decide_eq_true_eq] at hx
  rw [List.any_eq_false]
  intro r _
  rw [hx]
  simp

theorem emittedTasks_length_le (tasks : List Task)
    (hids : (tasks.map Task.id).Nodup) :
    (emittedTasks tasks).length ≤ (dedupTasks tasks).length := by
  rw [emitted_count_eq tasks hids]
  exact List.length_filter_le _ _

theorem emittedTasks_length_lt_orphan (tasks : List Task)
    (hids : (tasks.map Task.id).Nodup) (t : Task) (p : Nat)
    (htu : t ∈ dedupTasks tasks) (hp : t.parentId = some p)
    (habs : p ∉ tasks.map Task.id) :
    (emittedTasks tasks).length < (dedupTasks tasks).length := by
  rw [emitted_count_eq tasks hids]
  apply length_filter_lt_of_mem _ htu
  rw [Bool.or_eq_false_iff]
  constructor
  · rw [decide_eq_false_iff_not, hp]
    exact Option.noConfusion
  · rw [List.any_eq_false]
    intro r hr
    simp only [decide_eq_true_eq, hp]
    intro hc
    have hrid : p = r.id := Option.some_injective _ hc
    have hrtasks : r ∈ tasks := dedupTasks_subset (List.mem_filter.mp hr).1
    exact habs (hrid ▸ List.mem_map.mpr ⟨r, hrtasks, rfl⟩)

theorem formatTaskLines_length (today : Nat) (off : Int)
    (projects : List (String × String)) (isToday : Bool) (tasks : List Task) :
    (formatTaskLines today off projects isToday tasks).length =
      (emittedTasks tasks).length + 1 := by
  unfold formatTaskLines emittedTasks
  rw [List.length_cons, List.length_flatMap, List.length_flatMap]
  congr 1
  apply congrArg
  apply List.map_congr_left
  intro r _
  simp only [Function.comp_apply, List.length_cons, List.length_map, length_sortTasks]

/-- Claim C10: the summary line counts the task list as passed in (before
dedup and orphan filtering), and on an input with a duplicated
`(normalized_content, parent_id)` key or with an orphan child, strictly
fewer task lines than the stated count are rendered below it. -/
theorem c10_summary_overcount (tasks : List Task)
    (hids : (tasks.map Task.id).Nodup)
    (h : ¬ (tasks.map dedupKey).Nodup ∨
      ∃ t ∈ tasks, ∃ p, t.parentId = some p ∧ p ∉ tasks.map Task.id) :
    (emittedTasks tasks).length < tasks.length ∧
    ∀ today off projects isToday,
      (formatTaskLines today off projects isToday tasks).head? =
        some (summaryLine isToday tasks.length) ∧
      (formatTaskLines today off projects isToday tasks).length =
        (emittedTasks tasks).length + 1 := by
  constructor
  · rcases h with h | ⟨t, htl, p, hp, habs⟩
    · have h1 := emittedTasks_length_le tasks hids
      have h2 := dedupTasks_length_lt tasks h
      omega
    · by_cases htu : t ∈ dedupTasks tasks
      · have h1 := emittedTasks_length_lt_orphan tasks hids t p htu hp habs
        have h2 := dedupTasks_length_le tasks
        omega
      · have hxk : ¬ (tasks.map dedupKey).Nodup := by
          obtain ⟨v, hv, hkv⟩ := (dedupTasks_spec tasks).2.1 t htl
          have hvt : v ≠ t := fun he => htu (he ▸ hv)
          intro hnd
          exact hvt (List.inj_on_of_nodup_map hnd (dedupTasks_subset hv) htl hkv)
        have h1 := emittedTasks_length_le tasks hids
        have h2 := dedupTasks_length_lt tasks hxk
        omega
  · intro today off projects isToday
    exact ⟨rfl, formatTaskLines_length today off projects isToday tasks⟩

/-- Witness for C10: two equal-content root tasks — the summary says 2 but
only one line is rendered. -/
theorem c10_summary_overcount_witness :
    (emittedTasks [mkTask 1 "a" false 1 none none none none,
      mkTask 2 "a" false 1 none none none none]).length <
      ([mkTask 1 "a" false 1 none none none none,
        mkTask 2 "a" false 1 none none none none] : List Task).length :=
  (c10_summary_overcount _ (by decide) (Or.inl (by decide))).1

/-! ## Character-level facts for the note-parser round trip -/

theorem digitChar_props (n : Nat) :
    isDigitCh (digitChar n) = true ∧ digitChar n ≠ 's' ∧ digitChar n ≠ '\n' := by
  unfold digitChar isDigitCh
  split_ifs <;> exact ⟨by decide, by decide, by decide⟩

theorem isDigitCh_props {c : Char} (h : isDigitCh c = true) :
    c ≠ 's' ∧ c ≠ '\n' ∧ c ≠ '>' ∧ c ≠ '"' := by
  refine ⟨?_, ?_, ?_, ?_⟩ <;> intro he <;> rw [he] at h <;> exact absurd h (by decide)

theorem natReprAux_digits :
    ∀ (fuel n : Nat), ∀ c ∈ natReprAux fuel n, isDigitCh c = true := by
  intro fuel
  induction fuel with
  | zero => intro n c hc; simp [natReprAux] at hc
  | succ fuel ih =>
    intro n c hc
    unfold natReprAux at hc
    by_cases hn : n < 10
    · rw [if_pos hn] at hc
      rw [List.mem_singleton.mp hc]
      exact (digitChar_props n).1
    · rw [if_neg hn] at hc
      rcases List.mem_append.mp hc with hc | hc
      · exact ih (n / 10) c hc
      · rw [List.mem_singleton.mp hc]
        exact (digitChar_props (n % 10)).1

theorem natRepr_ne_nil (n : Nat) : (natRepr n).toList ≠ [] := by
  show natReprAux (n + 1) n ≠ []
  unfold natReprAux
  by_cases hn : n < 10
  · rw [if_pos hn]; exact List.cons_ne_nil _ _
  · rw [if_neg hn]
    intro hc
    exact absurd (List.append_eq_nil.mp hc).2 (List.cons_ne_nil _ _)

theorem natRepr_digits (n : Nat) : ∀ c ∈ (natRepr n).toList, isDigitCh c = true :=
  natReprAux_digits (n + 1) n

theorem intRepr_chars (i : Int) :
    ∀ c ∈ (intRepr i).toList, isDigitCh c = true ∨ c = '-' := by
  intro c hc
  unfold intRepr at hc
  split at hc
  · rw [show ("-" ++ natRepr i.natAbs).toList = '-' :: (natRepr i.natAbs).toList from rfl] at hc
    rcases List.mem_cons.mp hc with hc | hc
    · exact Or.inr hc
    · exact Or.inl (natRepr_digits _ c hc)
  · exact Or.inl (natRepr_digits _ c hc)

theorem pyLower_eq_nl {c : Char} (h : pyLower c = '\n') : c = '\n' := by
  unfold pyLower at h
  cases hf : lowerTable.find? (fun p => p.1 = c) with
  | none => rw [hf] at h; exact h
  | some p =>
    rw [hf] at h
    exfalso
    have hmem := List.mem_of_find?_eq_some hf
    have hnl : p.2 ≠ '\n' := by
      have : ∀ q ∈ lowerTable, q.2 ≠ '\n' := by decide
      exact this p hmem
    exact hnl h

theorem findCloseBr_subset :
    ∀ l r, findCloseBr l = some r → ∀ c ∈ r, c ∈ l := by
  intro l
  induction l with
  | nil => intro r hr; simp [findCloseBr] at hr
  | cons a l ih =>
    intro r hr c hc
    match l, hr with
    | [], hr => simp [findCloseBr] at hr
    | b :: rest, hr =>
      unfold findCloseBr at hr
      split at hr
      · rw [← Option.some_injective _ hr] at hc
        exact List.mem_cons_of_mem _ (List.mem_cons_of_mem _ hc)
      · split at hr
        · exact Option.noConfusion hr
        · exact List.mem_cons_of_mem _ (ih r hr c hc)

theorem replaceAllAux_subset (needle : List Char) :
    ∀ (fuel : Nat) (l : List Char), ∀ c ∈ replaceAllAux needle fuel l, c ∈ l := by
  intro fuel
  induction fuel with
  | zero => intro l c hc; exact hc
  | succ fuel ih =>
    intro l c hc
    match l with
    | [] => exact hc
    | a :: rest =>
      unfold replaceAllAux at hc
      split at hc
      · have := ih _ c hc
        exact List.drop_subset _ _ this
      · rcases List.mem_cons.mp hc with hc | hc
        · rw [hc]; exact List.mem_cons_self _ _
        · exact List.mem_cons_of_mem _ (ih rest c hc)

theorem all_ne_of_mem {c bad : Char} {l : List Char}
    (hall : l.all (fun d => decide (d ≠ bad)) = true) (hc : c ∈ l) : c ≠ bad := by
  have := List.all_eq_true.mp hall c hc
  simpa using this

theorem not_mem_emptyStr (c : Char) : c ∉ ("" : String).toList :=
  fun h => List.not_mem_nil c h

theorem stripWikiAux_subset :
    ∀ (fuel : Nat) (l : List Char), ∀ c ∈ stripWikiAux fuel l, c ∈ l := by
  intro fuel
  induction fuel with
  | zero => intro l c hc; exact hc
  | succ fuel ih =>
    intro l c hc
    match l with
    | [] => exact hc
    | [a] =>
      rcases List.mem_singleton.mp hc with hc
      rw [hc]; exact List.mem_cons_self _ _
    | a :: b :: rest2 =>
      rw [show stripWikiAux (fuel + 1) (a :: b :: rest2) =
          (if a = '[' && b = '[' then
            match findCloseBr rest2 with
            | some rest3 => stripWikiAux fuel rest3
            | none => '[' :: stripWikiAux fuel ('[' :: rest2)
          else a :: stripWikiAux fuel (b :: rest2)) from rfl] at hc
      split at hc
      · rename_i hab
        rw [Bool.and_eq_true, decide_eq_true_eq, decide_eq_true_eq] at hab
        cases hf : findCloseBr rest2 with
        | some rest3 =>
          rw [hf] at hc
          have h1 := ih rest3 c hc
          have h2 := findCloseBr_subset rest2 rest3 hf c h1
          exact List.mem_cons_of_mem _ (List.mem_cons_of_mem _ h2)
        | none =>
          rw [hf] at hc
          rcases List.mem_cons.mp hc with hc | hc
          · rw [hc, hab.1]; exact List.mem_cons_self _ _
          · have h1 := ih _ c hc
            rcases List.mem_cons.mp h1 with h1 | h1
            · rw [h1, hab.2]
              exact List.mem_cons_of_mem _ (List.mem_cons_self _ _)
            · exact List.mem_cons_of_mem _ (List.mem_cons_of_mem _ h1)
      · rcases List.mem_cons.mp hc with hc | hc
        · rw [hc]; exact List.mem_cons_self _ _
        · exact List.mem_cons_of_mem _ (ih _ c hc)

theorem pyStripList_subset (l : List Char) : ∀ c ∈ pyStripList l, c ∈ l := by
  intro c hc
  unfold pyStripList at hc
  rw [List.mem_reverse] at hc
  have h1 := (List.dropWhile_sublist _).subset hc
  rw [List.mem_reverse] at h1
  exact (List.dropWhile_sublist _).subset h1

theorem createClassString_chars (content : String) (hnl : '\n' ∉ content.toList) :
    ∀ c ∈ (createClassString content).toList, c ≠ '>' ∧ c ≠ '\n' := by
  intro c hc
  unfold createClassString at hc
  have h1 : c ∈ ((stripWikiAux (content.toList.length + 1) content.toList).map pyLower).filter
      (fun c => isWordChar c || isPySpace c) := pyStripList_subset _ c hc
  rw [List.mem_filter] at h1
  obtain ⟨hmem, hpred⟩ := h1
  obtain ⟨d, hd, hdc⟩ := List.mem_map.mp hmem
  constructor
  · intro he
    rw [he] at hpred
    exact absurd hpred (by decide)
  · intro he
    rw [he] at hdc
    have hdn := pyLower_eq_nl hdc
    have h2 := stripWikiAux_subset _ _ d hd
    rw [hdn] at h2
    exact hnl h2

theorem displayContent_chars (t : Task) (hnl : '\n' ∉ t.content.toList) :
    '\n' ∉ (displayContent t).toList := by
  intro hc
  exact hnl (replaceAllAux_subset _ _ _ _ hc)

theorem twoDigit_chars (n : Nat) : ∀ c ∈ (twoDigit n).toList, c ≠ 's' ∧ c ≠ '\n' := by
  intro c hc
  rcases List.mem_cons.mp hc with hc | hc
  · rw [hc]
    exact ⟨(digitChar_props _).2.1, (digitChar_props _).2.2⟩
  · rcases List.mem_singleton.mp hc with hc
    rw [hc]
    exact ⟨(digitChar_props _).2.1, (digitChar_props _).2.2⟩

theorem fmtHM_chars (off : Int) (instant : Nat) :
    ∀ c ∈ (fmtHM off instant).toList, c ≠ 's' ∧ c ≠ '\n' := by
  intro c hc
  unfold fmtHM at hc
  simp only [String.toList, String.data_append, List.append_assoc, List.mem_append] at hc
  rcases hc with hc | hc | hc
  · exact twoDigit_chars _ c hc
  · exact ⟨all_ne_of_mem (by decide) hc, all_ne_of_mem (by decide) hc⟩
  · exact twoDigit_chars _ c hc

theorem timePrefixStr_chars (today : Nat) (off : Int) (t : Task) :
    ∀ c ∈ (timePrefixStr today off t).toList, c ≠ 's' ∧ c ≠ '\n' := by
  intro c hc
  unfold timePrefixStr at hc
  split at hc
  · exact absurd hc (not_mem_emptyStr c)
  · split at hc
    · split at hc
      · simp only [String.toList, String.data_append, List.append_assoc,
          List.mem_append] at hc
        rcases hc with hc | hc | hc | hc
        · exact fmtHM_chars _ _ c hc
        · exact ⟨all_ne_of_mem (by decide) hc, all_ne_of_mem (by decide) hc⟩
        · exact fmtHM_chars _ _ c hc
        · exact ⟨all_ne_of_mem (by decide) hc, all_ne_of_mem (by decide) hc⟩
      · exact absurd hc (not_mem_emptyStr c)
    · exact absurd hc (not_mem_emptyStr c)

theorem priorityTag_chars (t : Task) :
    ∀ c ∈ (priorityTag t).toList, c ≠ 's' ∧ c ≠ '\n' := by
  intro c hc
  unfold priorityTag at hc
  split at hc
  · have hdig : ∀ d ∈ (intRepr (5 - (t.priority : Int))).toList, d ≠ 's' ∧ d ≠ '\n' := by
      intro d hd
      rcases intRepr_chars _ d hd with h | h
      · obtain ⟨h1, h2, _, _⟩ := isDigitCh_props h
        exact ⟨h1, h2⟩
      · rw [h]; exact ⟨by decide, by decide⟩
    simp only [String.toList, String.data_append, List.append_assoc, List.mem_append] at hc
    rcases hc with hc | hc | hc | hc | hc
    · exact ⟨all_ne_of_mem (by decide) hc, all_ne_of_mem (by decide) hc⟩
    · exact hdig c hc
    · exact ⟨all_ne_of_mem (by decide) hc, all_ne_of_mem (by decide) hc⟩
    · exact hdig c hc
    · exact ⟨all_ne_of_mem (by decide) hc, all_ne_of_mem (by decide) hc⟩
  · exact absurd hc (not_mem_emptyStr c)

/-! ## The note-parsing regex on rendered lines -/

theorem litAt_self : ∀ (l r : List Char), litAt l (l ++ r) = some r := by
  intro l
  induction l with
  | nil => intro r; rfl
  | cons a l ih =>
    intro r
    simp only [List.cons_append, litAt, if_pos rfl]
    exact ih r

theorem capToClose_at_close (rest : List Char) :
    capToClose (closeSpanLit ++ rest) = some [] := by
  have h1 : litAt closeSpanLit (closeSpanLit ++ rest) = some rest := litAt_self _ _
  rw [show closeSpanLit ++ rest = '<' :: (("/span>" : String).toList ++ rest) from rfl] at h1 ⊢
  rw [show capToClose ('<' :: (("/span>" : String).toList ++ rest)) =
      (if (litAt closeSpanLit ('<' :: (("/span>" : String).toList ++ rest))).isSome then some []
       else if '<' = '\n' then none
       else (capToClose (("/span>" : String).toList ++ rest)).map
         (fun r => '<' :: r)) from rfl]
  rw [h1]
  rfl

theorem stageGt_skip :
    ∀ (attrs rest : List Char), (∀ c ∈ attrs, c ≠ '>' ∧ c ≠ '\n') →
      capToClose rest = some [] → stageGt (attrs ++ '>' :: rest) = some [] := by
  intro attrs
  induction attrs with
  | nil =>
    intro rest _ hcap
    rw [List.nil_append]
    rw [show stageGt ('>' :: rest) =
        (if '>' = '>' then
          match capToClose rest with
          | some cap => some cap
          | none => stageGt rest
         else if '>' = '\n' then none else stageGt rest) from rfl]
    rw [if_pos rfl, hcap]
  | cons a attrs ih =>
    intro rest hcl hcap
    have ha := hcl a (List.mem_cons_self _ _)
    rw [List.cons_append]
    rw [show stageGt (a :: (attrs ++ '>' :: rest)) =
        (if a = '>' then
          match capToClose (attrs ++ '>' :: rest) with
          | some cap => some cap
          | none => stageGt (attrs ++ '>' :: rest)
         else if a = '\n' then none else stageGt (attrs ++ '>' :: rest)) from rfl]
    rw [if_neg ha.1, if_neg ha.2]
    exact ih rest (fun c hc => hcl c (List.mem_cons_of_mem _ hc)) hcap

theorem takeWhile_all_append {p : Char → Bool} :
    ∀ (l : List Char) (c : Char) (r : List Char), (∀ x ∈ l, p x = true) → p c = false →
      (l ++ c :: r).takeWhile p = l ∧ (l ++ c :: r).dropWhile p = c :: r := by
  intro l
  induction l with
  | nil =>
    intro c r _ hc
    rw [List.nil_append]
    constructor
    · rw [List.takeWhile_cons, hc, if_neg Bool.false_ne_true]
    · rw [List.dropWhile_cons, hc, if_neg Bool.false_ne_true]
  | cons a l ih =>
    intro c r hall hc
    have ha := hall a (List.mem_cons_self _ _)
    have ih2 := ih c r (fun x hx => hall x (List.mem_cons_of_mem _ hx)) hc
    rw [List.cons_append]
    constructor
    · rw [List.takeWhile_cons, ha, if_pos rfl, ih2.1]
    · rw [List.dropWhile_cons, ha, if_pos rfl, ih2.2]

theorem idThen_at (n : Nat) (rest : List Char) (hgt : stageGt rest = some []) :
    idThen ((natRepr n).toList ++ '"' :: rest) = some (natRepr n, "") := by
  obtain ⟨h1, h2⟩ := takeWhile_all_append (p := isDigitCh) (natRepr n).toList '"' rest
    (natRepr_digits n) (by decide)
  unfold idThen
  rw [h1, h2]
  rw [if_neg (fun hc => natRepr_ne_nil n (List.isEmpty_iff.mp hc))]
  show (stageGt rest).map
      (fun cap => (String.mk (natRepr n).toList, String.mk cap)) = some (natRepr n, "")
  rw [hgt]
  rfl

theorem litAt_spanOpen_two {a b : Char} (w : List Char) (h : a ≠ '<' ∨ b ≠ 's') :
    litAt spanOpenLit (a :: b :: w) = none := by
  rw [show spanOpenLit = '<' :: 's' :: ("pan data-id=\"" : String).toList from rfl]
  rcases h with h | h
  · rw [show litAt ('<' :: 's' :: ("pan data-id=\"" : String).toList) (a :: b :: w) =
        (if a = '<' then litAt ('s' :: ("pan data-id=\"" : String).toList) (b :: w)
         else none) from rfl]
    rw [if_neg h]
  · rw [show litAt ('<' :: 's' :: ("pan data-id=\"" : String).toList) (a :: b :: w) =
        (if a = '<' then litAt ('s' :: ("pan data-id=\"" : String).toList) (b :: w)
         else none) from rfl]
    split
    · rw [show litAt ('s' :: ("pan data-id=\"" : String).toList) (b :: w) =
          (if b = 's' then litAt (("pan data-id=\"" : String).toList) w else none) from rfl]
      rw [if_neg h]
    · rfl

theorem stageSpan_skip :
    ∀ (m rest : List Char) (r : String × String),
      (∀ c ∈ m, c ≠ 's' ∧ c ≠ '\n') → idThen rest = some r →
      stageSpan (m ++ (spanOpenLit ++ rest)) = some r := by
  intro m
  induction m with
  | nil =>
    intro rest r _ hid
    rw [List.nil_append]
    have hlit : litAt spanOpenLit (spanOpenLit ++ rest) = some rest := litAt_self _ _
    rw [show spanOpenLit ++ rest = '<' :: (("span data-id=\"" : String).toList ++ rest) from
      rfl] at hlit ⊢
    rw [show stageSpan ('<' :: (("span data-id=\"" : String).toList ++ rest)) =
        (match litAt spanOpenLit ('<' :: (("span data-id=\"" : String).toList ++ rest)) with
         | some rest2 =>
           (match idThen rest2 with
            | some r2 => some r2
            | none => if '<' = '\n' then none
                else stageSpan (("span data-id=\"" : String).toList ++ rest))
         | none => if '<' = '\n' then none
             else stageSpan (("span data-id=\"" : String).toList ++ rest)) from rfl]
    rw [hlit]
    show (match idThen rest with
      | some r2 => some r2
      | none => if '<' = '\n' then none
          else stageSpan (("span data-id=\"" : String).toList ++ rest)) = some r
    rw [hid]
  | cons a m ih =>
    intro rest r hm hid
    have ha := hm a (List.mem_cons_self _ _)
    have hlit : litAt spanOpenLit (a :: (m ++ (spanOpenLit ++ rest))) = none := by
      match m with
      | [] =>
        rw [List.nil_append]
        rw [show spanOpenLit ++ rest = '<' :: (("span data-id=\"" : String).toList ++ rest)
          from rfl]
        exact litAt_spanOpen_two _ (Or.inr (by decide))
      | b :: m2 =>
        have hb := hm b (List.mem_cons_of_mem _ (List.mem_cons_self _ _))
        rw [List.cons_append]
        exact litAt_spanOpen_two _ (Or.inr hb.1)
    rw [List.cons_append]
    rw [show stageSpan (a :: (m ++ (spanOpenLit ++ rest))) =
        (match litAt spanOpenLit (a :: (m ++ (spanOpenLit ++ rest))) with
         | some rest2 =>
           (match idThen rest2 with
            | some r2 => some r2
            | none => if a = '\n' then none else stageSpan (m ++ (spanOpenLit ++ rest)))
         | none => if a = '\n' then none else stageSpan (m ++ (spanOpenLit ++ rest))) from rfl]
    rw [hlit]
    show (if a = '\n' then none else stageSpan (m ++ (spanOpenLit ++ rest))) = some r
    rw [if_neg ha.2]
    exact ih rest r (fun c hc => hm c (List.mem_cons_of_mem _ hc)) hid

theorem matchCheck_render (cb : Char) (hcb : cb = ' ' ∨ cb = 'x')
    (m rest : List Char) (r : String × String)
    (hm : ∀ c ∈ m, c ≠ 's' ∧ c ≠ '\n') (hid : idThen rest = some r) :
    matchCheck (("- [" : String).toList ++ (cb :: (("] " : String).toList ++
        (m ++ (spanOpenLit ++ rest))))) = some (decide (cb = 'x'), r.1, r.2) := by
  have hspan := stageSpan_skip m rest r hm hid
  have hcb2 : (decide (cb = ' ') || decide (cb = 'x')) = true := by
    rcases hcb with h | h <;> rw [h] <;> decide
  unfold matchCheck
  rw [litAt_self (("- [" : String).toList)]
  show (if (decide (cb = ' ') || decide (cb = 'x')) = true then
      match litAt ("] " : String).toList (("] " : String).toList ++
        (m ++ (spanOpenLit ++ rest))) with
      | none => none
      | some r3 => Option.map (fun p => (decide (cb = 'x'), p.1, p.2)) (stageSpan r3)
    else none) = some (decide (cb = 'x'), r.1, r.2)
  rw [if_pos hcb2, litAt_self (("] " : String).toList)]
  show Option.map (fun p => (decide (cb = 'x'), p.1, p.2))
      (stageSpan (m ++ (spanOpenLit ++ rest))) = some (decide (cb = 'x'), r.1, r.2)
  rw [hspan]
  rfl

theorem searchLine_render (cb : Char) (hcb : cb = ' ' ∨ cb = 'x')
    (ind : List Char) (hind : ind = [] ∨ ind = ['\t'])
    (m rest : List Char) (r : String × String)
    (hm : ∀ c ∈ m, c ≠ 's' ∧ c ≠ '\n') (hid : idThen rest = some r) :
    searchLine (ind ++ (("- [" : String).toList ++ (cb :: (("] " : String).toList ++
        (m ++ (spanOpenLit ++ rest)))))) = some (decide (cb = 'x'), r.1, r.2) := by
  have hmc := matchCheck_render cb hcb m rest r hm hid
  rcases hind with hind | hind
  · subst hind
    rw [List.nil_append]
    rw [show searchLine (("- [" : String).toList ++ (cb :: (("] " : String).toList ++
        (m ++ (spanOpenLit ++ rest))))) =
        (match matchCheck (("- [" : String).toList ++ (cb :: (("] " : String).toList ++
          (m ++ (spanOpenLit ++ rest))))) with
         | some r2 => some r2
         | none => searchLine ((' ' :: '[' :: []) ++ (cb :: (("] " : String).toList ++
             (m ++ (spanOpenLit ++ rest)))))) from rfl]
    rw [hmc]
  · subst hind
    rw [show ['\t'] ++ (("- [" : String).toList ++ (cb :: (("] " : String).toList ++
        (m ++ (spanOpenLit ++ rest))))) =
        '\t' :: (("- [" : String).toList ++ (cb :: (("] " : String).toList ++
          (m ++ (spanOpenLit ++ rest))))) from rfl]
    have hmc2 : matchCheck ('\t' :: (("- [" : String).toList ++ (cb :: (("] " : String).toList ++
        (m ++ (spanOpenLit ++ rest)))))) = none := by
      unfold matchCheck
      rw [show ("- [" : String).toList = '-' :: (' ' :: ['[']) from rfl]
      rw [show litAt ('-' :: (' ' :: ['['])) ('\t' :: (('-' :: (' ' :: ['['])) ++
          (cb :: (("] " : String).toList ++ (m ++ (spanOpenLit ++ rest)))))) = none from by
        rw [show litAt ('-' :: (' ' :: ['['])) ('\t' :: (('-' :: (' ' :: ['['])) ++
            (cb :: (("] " : String).toList ++ (m ++ (spanOpenLit ++ rest)))))) =
            (if '\t' = '-' then litAt (' ' :: ['[']) (('-' :: (' ' :: ['['])) ++
              (cb :: (("] " : String).toList ++ (m ++ (spanOpenLit ++ rest)))))
             else none) from rfl]
        rw [if_neg (by decide)]]
    rw [show searchLine ('\t' :: (("- [" : String).toList ++ (cb :: (("] " : String).toList ++
        (m ++ (spanOpenLit ++ rest)))))) =
        (match matchCheck ('\t' :: (("- [" : String).toList ++ (cb :: (("] " : String).toList ++
          (m ++ (spanOpenLit ++ rest)))))) with
         | some r2 => some r2
         | none => searchLine (("- [" : String).toList ++ (cb :: (("] " : String).toList ++
             (m ++ (spanOpenLit ++ rest)))))) from rfl]
    rw [hmc2]
    show searchLine (("- [" : String).toList ++ (cb :: (("] " : String).toList ++
        (m ++ (spanOpenLit ++ rest))))) = some (decide (cb = 'x'), r.1, r.2)
    rw [show searchLine (("- [" : String).toList ++ (cb :: (("] " : String).toList ++
        (m ++ (spanOpenLit ++ rest))))) =
        (match matchCheck (("- [" : String).toList ++ (cb :: (("] " : String).toList ++
          (m ++ (spanOpenLit ++ rest))))) with
         | some r2 => some r2
         | none => searchLine ((' ' :: '[' :: []) ++ (cb :: (("] " : String).toList ++
             (m ++ (spanOpenLit ++ rest)))))) from rfl]
    rw [hmc]

/-- Amended C1: parsing a rendered task line recovers the task's id (as its
digit string) and its completion flag, but the parsed `content` group is the
span element's body — always empty on rendered lines — rather than the
task's title, which the renderer places after `</span>`.  The project name
is assumed free of `>` and newlines and the title free of newlines (a task
line must be newline-free to be a line). -/
theorem c1_roundtrip_amended (t : Task) (today : Nat) (off : Int) (pn : String)
    (indent : Bool) (hnl : '\n' ∉ t.content.toList)
    (hpn : ∀ c ∈ pn.toList, c ≠ '>' ∧ c ≠ '\n') :
    parseNoteLine (renderTaskLine today off pn indent t) =
      some { id := natRepr t.id, content := "", completed := t.completed,
             raw := pyStrip (renderTaskLine today off pn indent t) } := by
  have hcontent := displayContent_chars t hnl
  have hcs := createClassString_chars (displayContent t) hcontent
  have hattrs : ∀ c ∈ ((" data-project=\"" : String).toList ++ (pn.toList ++
      (("\" class=\"" : String).toList ++ ((createClassString (displayContent t)).toList ++
        (['"'] : List Char))))), c ≠ '>' ∧ c ≠ '\n' := by
    intro c hc
    rcases List.mem_append.mp hc with hc | hc
    · exact ⟨all_ne_of_mem (by decide) hc, all_ne_of_mem (by decide) hc⟩
    rcases List.mem_append.mp hc with hc | hc
    · exact hpn c hc
    rcases List.mem_append.mp hc with hc | hc
    · exact ⟨all_ne_of_mem (by decide) hc, all_ne_of_mem (by decide) hc⟩
    rcases List.mem_append.mp hc with hc | hc
    · exact hcs c hc
    · rcases List.mem_singleton.mp hc with hc
      rw [hc]; exact ⟨by decide, by decide⟩
  have hcap := capToClose_at_close ((displayContent t).toList)
  have hgt := stageGt_skip _ ((closeSpanLit ++ (displayContent t).toList)) hattrs hcap
  have hid := idThen_at t.id _ hgt
  have hm : ∀ c ∈ ((timePrefixStr today off t).toList ++ (priorityTag t).toList),
      c ≠ 's' ∧ c ≠ '\n' := by
    intro c hc
    rcases List.mem_append.mp hc with hc | hc
    · exact timePrefixStr_chars _ _ _ c hc
    · exact priorityTag_chars _ c hc
  have hcb : (if t.completed then 'x' else ' ') = ' ' ∨
      (if t.completed then 'x' else ' ') = 'x' := by
    cases t.completed
    · exact Or.inl rfl
    · exact Or.inr rfl
  have hind : (if indent then ['\t'] else ([] : List Char)) = [] ∨
      (if indent then ['\t'] else ([] : List Char)) = ['\t'] := by
    cases indent
    · exact Or.inl rfl
    · exact Or.inr rfl
  have hsearch := searchLine_render (if t.completed then 'x' else ' ') hcb
    (if indent then ['\t'] else []) hind
    ((timePrefixStr today off t).toList ++ (priorityTag t).toList)
    ((natRepr t.id).toList ++ '"' :: (((" data-project=\"" : String).toList ++ (pn.toList ++
      (("\" class=\"" : String).toList ++ ((createClassString (displayContent t)).toList ++
        (['"'] : List Char))))) ++ '>' :: (closeSpanLit ++ (displayContent t).toList)))
    (natRepr t.id, "") hm hid
  have hdec : (renderTaskLine today off pn indent t).toList =
      (if indent then ['\t'] else []) ++ (("- [" : String).toList ++
        ((if t.completed then 'x' else ' ') :: (("] " : String).toList ++
          (((timePrefixStr today off t).toList ++ (priorityTag t).toList) ++
            (spanOpenLit ++ ((natRepr t.id).toList ++ '"' ::
              (((" data-project=\"" : String).toList ++ (pn.toList ++
                (("\" class=\"" : String).toList ++
                  ((createClassString (displayContent t)).toList ++ (['"'] : List Char))))) ++
                '>' :: (closeSpanLit ++ (displayContent t).toList)))))))) := by
    unfold renderTaskLine spanStr checkboxStr
    cases indent <;> cases t.completed <;>
      simp [String.toList, String.data_append, List.append_assoc, spanOpenLit, closeSpanLit,
        show ("\" data-project=\"" : String).data =
          '"' :: (" data-project=\"" : String).data from rfl,
        show ("\"></span>" : String).data =
          '"' :: ('>' :: ("</span>" : String).data) from rfl,
        show (" " : String).data = [' '] from rfl,
        show ("x" : String).data = ['x'] from rfl,
        show ("\t" : String).data = ['\t'] from rfl,
        show ("" : String).data = [] from rfl]
  unfold parseNoteLine
  rw [show (renderTaskLine today off pn indent t).toList =
      (if indent then ['\t'] else []) ++ (("- [" : String).toList ++
        ((if t.completed then 'x' else ' ') :: (("] " : String).toList ++
          (((timePrefixStr today off t).toList ++ (priorityTag t).toList) ++
            (spanOpenLit ++ ((natRepr t.id).toList ++ '"' ::
              (((" data-project=\"" : String).toList ++ (pn.toList ++
                (("\" class=\"" : String).toList ++
                  ((createClassString (displayContent t)).toList ++ (['"'] : List Char))))) ++
                '>' :: (closeSpanLit ++ (displayContent t).toList)))))))) from hdec]
  rw [hsearch]
  rw [show (decide ((if t.completed then 'x' else ' ') = 'x')) = t.completed from by
    cases t.completed <;> rfl]
  rfl

/-- Counterexample to C1 as stated: for the task `42 / "Title"`, the parsed
record's `content` is the empty span body, not the (suffix-stripped) content
`"Title"` that produced the line — content does not round-trip. -/
theorem c1_counterexample :
    parseNoteLine (renderTaskLine 0 0 "" false (mkTask 42 "Title" false 1 none none none none)) =
      some { id := "42", content := "", completed := false,
             raw := "- [ ] <span data-id=\"42\" data-project=\"\" class=\"title\"></span>Title" } ∧
    ("" : String) ≠
      normContent (mkTask 42 "Title" false 1 none none none none).content := by
  exact ⟨rfl, by decide⟩

/-- Witness for the amended C1 at a concrete task. -/
theorem c1_roundtrip_amended_witness :
    parseNoteLine (renderTaskLine 20000 120 "Work" true
        (mkTask 7 "Hello" true 3 (some "1") (some 2)
          (some (20000 * 86400 + 12 * 3600)) (some 30))) =
      some { id := natRepr 7, content := "", completed := true,
             raw := pyStrip (renderTaskLine 20000 120 "Work" true
               (mkTask 7 "Hello" true 3 (some "1") (some 2)
                 (some (20000 * 86400 + 12 * 3600)) (some 30))) } :=
  c1_roundtrip_amended (mkTask 7 "Hello" true 3 (some "1") (some 2)
      (some (20000 * 86400 + 12 * 3600)) (some 30)) 20000 120 "Work" true
    (by decide) (by decide)

/-! ## Claim C7: the time-range prefix -/

/-- Claim C7: a rendered line carries a nonempty `HH:MM - HH:MM ` prefix
only if the task's scheduled (UTC) date equals the render date — and a task
due today at 14:00 local (12:00 UTC at offset +120) with a 30-minute
duration renders exactly as the claimed line, the displayed times being the
local-time conversions of the stored instant. -/
theorem c7_time_prefix :
    (∀ (t : Task) (today : Nat) (off : Int), timePrefixStr today off t ≠ "" →
      ∃ s, t.dueDatetime = some s ∧ epochDay s = today) ∧
    renderTaskLine 20000 120 "" false
        (mkTask 7 "Title" false 1 none none (some (20000 * 86400 + 12 * 3600)) (some 30)) =
      "- [ ] 14:00 - 14:30 <span data-id=\"7\" data-project=\"\" class=\"title\"></span>Title" := by
  constructor
  · intro t today off h
    unfold timePrefixStr at h
    split at h
    · exact absurd rfl h
    · rename_i s hs
      refine ⟨s, hs, ?_⟩
      by_cases hd : epochDay s = today
      · exact hd
      · rw [if_neg hd] at h
        exact absurd rfl h
  · rfl

/-- Witness for C7: the concrete task's prefix is nonempty, so its scheduled
date is the render date. -/
theorem c7_time_prefix_witness :
    ∃ s, (mkTask 7 "Title" false 1 none none
        (some (20000 * 86400 + 12 * 3600)) (some 30)).dueDatetime = some s ∧
      epochDay s = 20000 :=
  c7_time_prefix.1 (mkTask 7 "Title" false 1 none none
    (some (20000 * 86400 + 12 * 3600)) (some 30)) 20000 120 (by decide)

/-! ## Claim C6: the sync opt-out marker -/

/-- Claim C6: if any non-blockquote line of the note contains the marker
phrase `Synkronointi lopetettu`, reconciliation performs zero remote writes
and leaves the note records untouched. -/
theorem c6_sync_stop (noteLines : List String) (noteTasks : List NoteRec)
    (todoistTasks : List Task) (fetch : Except Unit (List (String × String)))
    (h : ∃ l ∈ noteLines, startsWithGt l = false ∧
      containsSub syncStopMarker.toList l.toList = true) :
    (syncTasksWithTodoist noteLines noteTasks todoistTasks fetch).2 = [] ∧
    (syncTasksWithTodoist noteLines noteTasks todoistTasks fetch).1 = noteTasks := by
  obtain ⟨l, hl, h1, h2⟩ := h
  have hdis : syncDisabledLines noteLines = true := by
    unfold syncDisabledLines
    rw [List.any_eq_true]
    exact ⟨l, hl, by rw [h1, h2]; rfl⟩
  unfold syncTasksWithTodoist
  rw [if_pos hdis]
  exact ⟨rfl, rfl⟩

/-- Witness for C6 at the spec's scenario line. -/
theorem c6_sync_stop_witness :
    (syncTasksWithTodoist ["Synkronointi lopetettu klo 10:00"]
        [{ id := "42", content := "", completed := true, raw := "" }]
        [mkTask 42 "T" false 1 none none none none] (Except.ok [])).2 = [] ∧
    (syncTasksWithTodoist ["Synkronointi lopetettu klo 10:00"]
        [{ id := "42", content := "", completed := true, raw := "" }]
        [mkTask 42 "T" false 1 none none none none] (Except.ok [])).1 =
      [{ id := "42", content := "", completed := true, raw := "" }] :=
  c6_sync_stop _ _ _ _
    ⟨"Synkronointi lopetettu klo 10:00", List.mem_cons_self _ _, by decide, by decide⟩

/-! ## Claim C5: the completion conflict -/

theorem syncOneGo_cons (items : List (String × String)) (n : NoteRec) (rt : Task)
    (rest : List Task) :
    syncOneGo items n (rt :: rest) =
      if n.id = natRepr rt.id then
        if n.completed ≠ rt.completed then
          if items.any (fun it => it.1 = n.id) then
            syncOneGo items { n with completed := rt.completed } rest
          else
            ((syncOneGo items n rest).1,
              (if n.completed then SyncAction.close rt.id else SyncAction.reopen rt.id) ::
                (syncOneGo items n rest).2)
        else syncOneGo items n rest
      else syncOneGo items n rest := by
  rw [syncOneGo.eq_2]

theorem syncOneGo_noop (items : List (String × String)) (n : NoteRec) :
    ∀ remote : List Task, (∀ r ∈ remote, n.id ≠ natRepr r.id) →
      syncOneGo items n remote = (n, []) := by
  intro remote
  induction remote with
  | nil => intro _; rfl
  | cons rt rest ih =>
    intro h
    rw [syncOneGo_cons, if_neg (h rt (List.mem_cons_self _ _))]
    exact ih (fun r hr => h r (List.mem_cons_of_mem _ hr))

theorem syncOneGo_adopt (items : List (String × String)) (n : NoteRec) (rt : Task) :
    ∀ remote : List Task, (remote.map (fun r => natRepr r.id)).Nodup → rt ∈ remote →
      n.id = natRepr rt.id → n.completed ≠ rt.completed →
      items.any (fun it => it.1 = n.id) = true →
      syncOneGo items n remote = ({ n with completed := rt.completed }, []) := by
  intro remote
  induction remote with
  | nil => intro _ h; simp at h
  | cons r0 rest ih =>
    intro hnd hrt hid hneq hts
    rw [List.map_cons, List.nodup_cons] at hnd
    rcases List.mem_cons.mp hrt with hrt | hrt
    · subst hrt
      rw [syncOneGo_cons, if_pos hid, if_pos hneq, if_pos hts]
      apply syncOneGo_noop
      intro r hr he
      have he2 : n.id = natRepr r.id := he
      apply hnd.1
      rw [← hid, he2]
      exact List.mem_map.mpr ⟨r, hr, rfl⟩
    · have hne : ¬ (n.id = natRepr r0.id) := by
        intro he
        apply hnd.1
        rw [← he, hid]
        exact List.mem_map.mpr ⟨rt, hrt, rfl⟩
      rw [syncOneGo_cons, if_neg hne]
      exact ih hnd.2 hrt hid hneq hts

theorem syncOneGo_push (items : List (String × String)) (n : NoteRec) (rt : Task)
    (hts : items.any (fun it => it.1 = n.id) = false) :
    ∀ remote : List Task, rt ∈ remote → n.id = natRepr rt.id → n.completed ≠ rt.completed →
      (if n.completed then SyncAction.close rt.id else SyncAction.reopen rt.id) ∈
        (syncOneGo items n remote).2 := by
  intro remote
  induction remote with
  | nil => intro h; simp at h
  | cons r0 rest ih =>
    intro hrt hid hneq
    rcases List.mem_cons.mp hrt with hrt | hrt
    · subst hrt
      rw [syncOneGo_cons, if_pos hid, if_pos hneq,
        if_neg (by rw [hts]; exact Bool.false_ne_true)]
      exact List.mem_cons_self _ _
    · by_cases hne : n.id = natRepr r0.id
      · by_cases hcq : n.completed ≠ r0.completed
        · rw [syncOneGo_cons, if_pos hne, if_pos hcq,
            if_neg (by rw [hts]; exact Bool.false_ne_true)]
          exact List.mem_cons_of_mem _ (ih hrt hid hneq)
        · rw [syncOneGo_cons, if_pos hne, if_neg hcq]
          exact ih hrt hid hneq
      · rw [syncOneGo_cons, if_neg hne]
        exact ih hrt hid hneq

theorem syncOneGo_actions (items : List (String × String)) :
    ∀ (remote : List Task) (n : NoteRec), ∀ a ∈ (syncOneGo items n remote).2,
      natRepr a.taskId = n.id ∧ items.any (fun it => it.1 = n.id) = false := by
  intro remote
  induction remote with
  | nil => intro n a ha; simp [syncOneGo] at ha
  | cons r0 rest ih =>
    intro n a ha
    rw [syncOneGo_cons] at ha
    by_cases h1 : n.id = natRepr r0.id
    · rw [if_pos h1] at ha
      by_cases h2 : n.completed ≠ r0.completed
      · rw [if_pos h2] at ha
        by_cases h3 : items.any (fun it => it.1 = n.id) = true
        · rw [if_pos h3] at ha
          exact ih { n with completed := r0.completed } a ha
        · have h3f : items.any (fun it => it.1 = n.id) = false := by
            cases hv : items.any (fun it => it.1 = n.id)
            · rfl
            · exact absurd hv h3
          rw [if_neg (by rw [h3f]; exact Bool.false_ne_true)] at ha
          rcases List.mem_cons.mp ha with ha | ha
          · constructor
            · rw [ha]
              cases hn : n.completed
              · rw [if_neg Bool.false_ne_true]
                exact h1.symm
              · rw [if_pos rfl]
                exact h1.symm
            · exact h3f
          · exact ih n a ha
      · rw [if_neg h2] at ha
        exact ih n a ha
    · rw [if_neg h1] at ha
      exact ih n a ha

/-- Claim C5: for a note record matching a remote task by id with differing
completion flags — if the completed-items feed has a timestamp for the id,
the remote flag is adopted into the note record and no remote write is
issued for that id; otherwise the note's state is pushed: the close endpoint
when the note marks it complete, the reopen endpoint when it marks it
incomplete. -/
theorem c5_completion_conflict (noteLines : List String) (notes : List NoteRec)
    (remote : List Task) (items : List (String × String)) (n : NoteRec) (rt : Task)
    (hdis : syncDisabledLines noteLines = false)
    (hn : n ∈ notes) (hrt : rt ∈ remote) (hid : n.id = natRepr rt.id)
    (hneq : n.completed ≠ rt.completed) :
    (items.any (fun it => it.1 = n.id) = true →
      (remote.map (fun r => natRepr r.id)).Nodup →
      ({ n with completed := rt.completed } ∈
          (syncTasksWithTodoist noteLines notes remote (Except.ok items)).1 ∧
        ∀ a ∈ (syncTasksWithTodoist noteLines notes remote (Except.ok items)).2,
          natRepr a.taskId ≠ n.id)) ∧
    (items.any (fun it => it.1 = n.id) = false →
      (if n.completed then SyncAction.close rt.id else SyncAction.reopen rt.id) ∈
        (syncTasksWithTodoist noteLines notes remote (Except.ok items)).2) := by
  have hsync : syncTasksWithTodoist noteLines notes remote (Except.ok items) =
      (notes.map (fun m => (syncOneGo items m remote).1),
       notes.flatMap (fun m => (syncOneGo items m remote).2)) := by
    unfold syncTasksWithTodoist
    rw [if_neg (by rw [hdis]; exact Bool.false_ne_true)]
  constructor
  · intro hts hnd
    constructor
    · rw [hsync]
      exact List.mem_map.mpr ⟨n, hn, by
        rw [syncOneGo_adopt items n rt remote hnd hrt hid hneq hts]⟩
    · intro a ha he
      rw [hsync] at ha
      obtain ⟨m, hm, ham⟩ := List.mem_flatMap.mp ha
      obtain ⟨hat, haf⟩ := syncOneGo_actions items remote m a ham
      rw [he] at hat
      rw [hat] at hts
      rw [hts] at haf
      exact absurd haf (by simp)
  · intro hts
    rw [hsync]
    exact List.mem_flatMap.mpr ⟨n, hn, syncOneGo_push items n rt hts remote hrt hid hneq⟩

/-- Witness for C5 at the spec's scenario: note task 42 complete, remote 42
incomplete, no remote completion timestamp — the close endpoint is invoked
for 42. -/
theorem c5_completion_conflict_witness :
    SyncAction.close 42 ∈
      (syncTasksWithTodoist ["hello"]
        [{ id := "42", content := "", completed := true, raw := "" }]
        [mkTask 42 "T" false 1 none none none none] (Except.ok [])).2 := by
  have h := (c5_completion_conflict ["hello"]
      [{ id := "42", content := "", completed := true, raw := "" }]
      [mkTask 42 "T" false 1 none none none none] []
      { id := "42", content := "", completed := true, raw := "" }
      (mkTask 42 "T" false 1 none none none none)
      (by decide) (List.mem_cons_self _ _) (List.mem_cons_self _ _)
      (by decide) (by decide)).2 (by decide)
  simpa using h

/-! ## Claim C9: fetch error handling -/

/-- Helper for C9: a transport failure of the completed-items feed raises out
of the body of `get_completed_tasks`. -/
theorem getCompletedTasksE_err (tr : Transport) (s : String)
    (h : tr.completedAll = Except.error ()) :
    getCompletedTasksE tr s = Except.error () := by
  unfold getCompletedTasksE
  rw [h]

/-- Helper for C9: a transport failure of the today-tasks request raises out
of the body of `get_todoist_tasks`. -/
theorem getTodoistTasksE_err (tr : Transport) (s : String)
    (h : tr.todayTasks = Except.error ()) :
    getTodoistTasksE tr s = Except.error () := by
  unfold getTodoistTasksE
  rw [h]

/-- Helper for C9: a transport failure of the backlog request raises out of
the body of `get_backlog_tasks`. -/
theorem getBacklogTasksE_err (tr : Transport)
    (h : tr.backlogTasks = Except.error ()) :
    getBacklogTasksE tr = Except.error () := by
  unfold getBacklogTasksE
  rw [h]

/-- Helper for C9: a transport failure of the future-tasks request raises out
of the body of `get_future_tasks`. -/
theorem getFutureTasksE_err (tr : Transport)
    (h : tr.futureTasks = Except.error ()) :
    getFutureTasksE tr = Except.error () := by
  unfold getFutureTasksE
  rw [h]

/-- Claim C9: every task-collection fetch returns the empty list instead of
propagating when its body raises a transport error — and in particular when
the underlying transport request it issues first raises. -/
theorem c9_fetch_errors (tr : Transport) (s : String) :
    (getTodoistTasksE tr s = Except.error () → getTodoistTasks tr s = []) ∧
    (getCompletedTasksE tr s = Except.error () → getCompletedTasks tr s = []) ∧
    (getBacklogTasksE tr = Except.error () → getBacklogTasks tr = []) ∧
    (getFutureTasksE tr = Except.error () → getFutureTasks tr = []) ∧
    (tr.todayTasks = Except.error () → getTodoistTasks tr s = []) ∧
    (tr.completedAll = Except.error () → getCompletedTasks tr s = []) ∧
    (tr.backlogTasks = Except.error () → getBacklogTasks tr = []) ∧
    (tr.futureTasks = Except.error () → getFutureTasks tr = []) := by
  refine ⟨?_, ?_, ?_, ?_, ?_, ?_, ?_, ?_⟩
  · intro h; unfold getTodoistTasks; rw [h]; rfl
  · intro h; unfold getCompletedTasks; rw [h]; rfl
  · intro h; unfold getBacklogTasks; rw [h]; rfl
  · intro h; unfold getFutureTasks; rw [h]; rfl
  · intro h; unfold getTodoistTasks; rw [getTodoistTasksE_err tr s h]; rfl
  · intro h; unfold getCompletedTasks; rw [getCompletedTasksE_err tr s h]; rfl
  · intro h; unfold getBacklogTasks; rw [getBacklogTasksE_err tr h]; rfl
  · intro h; unfold getFutureTasks; rw [getFutureTasksE_err tr h]; rfl

/-- Witness for C9: with every transport request failing, all four fetches
return the empty list. -/
theorem c9_fetch_errors_witness :
    getTodoistTasks
        { todayTasks := Except.error (), allTasks := Except.error (),
          completedAll := Except.error (), taskById := fun _ => Except.error (),
          backlogTasks := Except.error (), futureTasks := Except.error () } "2024-01-01" = [] ∧
      getCompletedTasks
        { todayTasks := Except.error (), allTasks := Except.error (),
          completedAll := Except.error (), taskById := fun _ => Except.error (),
          backlogTasks := Except.error (), futureTasks := Except.error () } "2024-01-01" = [] ∧
      getBacklogTasks
        { todayTasks := Except.error (), allTasks := Except.error (),
          completedAll := Except.error (), taskById := fun _ => Except.error (),
          backlogTasks := Except.error (), futureTasks := Except.error () } = [] ∧
      getFutureTasks
        { todayTasks := Except.error (), allTasks := Except.error (),
          completedAll := Except.error (), taskById := fun _ => Except.error (),
          backlogTasks := Except.error (), futureTasks := Except.error () } = [] := by
  have h := c9_fetch_errors
      { todayTasks := Except.error (), allTasks := Except.error (),
        completedAll := Except.error (), taskById := fun _ => Except.error (),
        backlogTasks := Except.error (), futureTasks := Except.error () } "2024-01-01"
  exact ⟨h.2.2.2.2.1 rfl, h.2.2.2.2.2.1 rfl, h.2.2.2.2.2.2.1 rfl, h.2.2.2.2.2.2.2 rfl⟩

/-! ## Claim C8: the fuzzy duplicate check -/

/-- Counterexample to C8: an event at 23:59 and a task with the same title
at 00:02 the next day differ by three minutes with similarity 1, yet the
check reports no duplicate — branch (b) is nested under the same-calendar-
date test, which the claim omits. -/
theorem c8_counterexample :
    findSimilarTodoistTask (fun a b => if a = b then (1 : ℚ) else 0) "Meeting"
        (100 * 86400 - 60)
        [mkTask 1 "Meeting" false 1 none none (some (100 * 86400 + 120)) none] = false ∧
      findSimilarClaim (fun a b => if a = b then (1 : ℚ) else 0) "Meeting"
        (100 * 86400 - 60)
        [mkTask 1 "Meeting" false 1 none none (some (100 * 86400 + 120)) none] = true := by
  constructor
  · rfl
  · have hq : (7 : ℚ) / 10 < 1 := by norm_num
    unfold findSimilarClaim
    rw [List.any_cons, List.any_nil, Bool.or_false]
    simp only [mkTask]
    refine Bool.or_eq_true_iff.mpr (Or.inr ?_)
    refine Bool.and_eq_true_iff.mpr ⟨Bool.and_eq_true_iff.mpr ⟨?_, ?_⟩, ?_⟩
    · rw [if_pos trivial]
      exact decide_eq_true hq
    · decide
    · decide

/-- Claim C8 as amended: the fuzzy existence check reports a duplicate
exactly when some current task has a due instant on the event's calendar
date and either the normalized titles match exactly, or the similarity
ratio exceeds 0.7 and the instants are within five minutes — the date
requirement governs branch (b) as well; and on a duplicate match the
creation is skipped while the idempotency record is still appended. -/
theorem c8_amended (sim : String → String → ℚ) (eventTitle : String) (startDt : Nat)
    (allTasks : List Task) :
    (findSimilarTodoistTask sim eventTitle startDt allTasks = true ↔
      ∃ task ∈ allTasks, ∃ td, task.dueDatetime = some td ∧
        epochDay td = epochDay startDt ∧
        (cleanTitle task.content = cleanTitle eventTitle ∨
          ((7 : ℚ) / 10 < sim (cleanTitle eventTitle) (cleanTitle task.content) ∧
            (td : Int) - (startDt : Int) ≤ 300 ∧ (startDt : Int) - (td : Int) ≤ 300))) ∧
    (∀ (now : Nat) (e : CalEvent) (projectId : String) (dryRun createOk : Bool) (s en : Nat),
      e.startDt = some s → e.endDt = some en → ¬ (now + 365 * 86400 < s) →
      findSimilarTodoistTask sim e.summary s allTasks = true →
      createTodoistTask now sim (Except.ok allTasks) e projectId dryRun createOk =
        ([{ eventId := e.id, title := e.summary, date := epochDay s }], none)) := by
  constructor
  · unfold findSimilarTodoistTask
    rw [List.any_eq_true]
    constructor
    · rintro ⟨task, htask, hp⟩
      refine ⟨task, htask, ?_⟩
      simp only at hp
      cases hd : task.dueDatetime with
      | none => simp only [hd] at hp; exact Bool.noConfusion hp
      | some td =>
        simp only [hd] at hp
        by_cases he : epochDay td = epochDay startDt
        · rw [if_pos he] at hp
          refine ⟨td, rfl, he, ?_⟩
          rcases Bool.or_eq_true_iff.mp hp with h1 | h2
          · exact Or.inl (of_decide_eq_true h1)
          · obtain ⟨h3, h4⟩ := Bool.and_eq_true_iff.mp h2
            obtain ⟨h5, h6⟩ := Bool.and_eq_true_iff.mp h3
            exact Or.inr ⟨of_decide_eq_true h5, of_decide_eq_true h6, of_decide_eq_true h4⟩
        · rw [if_neg he] at hp; cases hp
    · rintro ⟨task, htask, td, hd, he, hor⟩
      refine ⟨task, htask, ?_⟩
      simp only [hd]
      rw [if_pos he]
      rcases hor with h1 | ⟨h5, h6, h4⟩
      · exact Bool.or_eq_true_iff.mpr (Or.inl (decide_eq_true h1))
      · exact Bool.or_eq_true_iff.mpr (Or.inr (Bool.and_eq_true_iff.mpr
          ⟨Bool.and_eq_true_iff.mpr ⟨decide_eq_true h5, decide_eq_true h6⟩,
            decide_eq_true h4⟩))
  · intro now e projectId dryRun createOk s en hs hen hfar hdup
    unfold createTodoistTask
    rw [hs, hen]
    simp only [if_neg hfar, hdup, if_true]

/-- Witness for C8's amended statement: a same-date exact title match (after
lower-casing and suffix stripping) is reported as a duplicate, and the
creation step then only appends the idempotency record. -/
theorem c8_amended_witness :
    findSimilarTodoistTask (fun a b => if a = b then (1 : ℚ) else 0) "Standup Meeting"
        (200 * 86400 + 3600)
        [mkTask 5 "Standup meeting @Google-kalenterin tapahtuma" false 1 none none
          (some (200 * 86400 + 7200)) none] = true ∧
      createTodoistTask 0 (fun a b => if a = b then (1 : ℚ) else 0)
          (Except.ok
            [mkTask 5 "Standup meeting @Google-kalenterin tapahtuma" false 1 none none
              (some (200 * 86400 + 7200)) none])
          { id := "ev1", summary := "Standup Meeting", startDt := some (200 * 86400 + 3600),
            endDt := some (200 * 86400 + 5400) }
          "proj" false true =
        ([{ eventId := "ev1", title := "Standup Meeting", date := 200 }], none) := by
  have h := c8_amended (fun a b => if a = b then (1 : ℚ) else 0) "Standup Meeting"
      (200 * 86400 + 3600)
      [mkTask 5 "Standup meeting @Google-kalenterin tapahtuma" false 1 none none
        (some (200 * 86400 + 7200)) none]
  have h1 : findSimilarTodoistTask (fun a b => if a = b then (1 : ℚ) else 0) "Standup Meeting"
      (200 * 86400 + 3600)
      [mkTask 5 "Standup meeting @Google-kalenterin tapahtuma" false 1 none none
        (some (200 * 86400 + 7200)) none] = true :=
    h.1.mpr ⟨_, List.mem_cons_self _ _, 200 * 86400 + 7200, rfl, by decide,
      Or.inl (by decide)⟩
  refine ⟨h1, ?_⟩
  have h2 := h.2 0
      { id := "ev1", summary := "Standup Meeting", startDt := some (200 * 86400 + 3600),
        endDt := some (200 * 86400 + 5400) }
      "proj" false true (200 * 86400 + 3600) (200 * 86400 + 5400) rfl rfl (by decide) h1
  simpa using h2

end DayPlanner
